import Mathlib

/-!
A shallow embedding of the decode-stage scheduler
(`src/max/serve/scheduler/decode_scheduler.py`) together with proofs about its
admission, preemption, step-planning, reclamation and response-streaming logic.

External collaborators (the paged KV-cache manager's `prefetch`, the token
generator's `next_token`, and the opaque `InputContext` method
`compute_num_available_steps`) are modelled as oracle function fields; the
effects the scheduler performs on them (`external_claim`, `pipeline.release`,
`prefetch`) are recorded in an explicit event log so that the theorems can
speak about how often and in which order they happen.
-/

namespace DecodeSched

/-- `DecodeSchedulerConfig`: static scheduler configuration. -/
structure DecodeSchedulerConfig where
  max_batch_size_tg : Nat
  max_forward_steps_tg : Nat

/-- Per-request generation state (`InputContext` from `max.pipelines.core`,
outside the scheduler source).  `compute_num_available_steps` is kept abstract
as a function field, since the scheduler only ever calls it as a black box. -/
structure InputContext where
  cache_seq_id : Nat
  is_assigned_to_cache : Bool
  max_length : Option Nat
  compute_num_available_steps : Nat → Int

/-- Modelled from the spec: `InputContext.assign_to_cache` (implemented outside
the scheduler source) records the claimed cache slot on the context; "a
cache-slot assignment (unset until claimed)". -/
def InputContext.assign_to_cache (c : InputContext) (idx : Nat) : InputContext :=
  { c with cache_seq_id := idx, is_assigned_to_cache := true }

/-- Modelled from the spec: `InputContext.reset` (implemented outside the
scheduler source) resets the generation progress pointer; per the spec
invariant "PreemptedSet ... its members hold no cache slot and have had their
generation progress pointer reset", it drops the cache-slot assignment. -/
def InputContext.reset (c : InputContext) : InputContext :=
  { c with is_assigned_to_cache := false }

/-- One request's result from the token generator
(`TextGenerationResponse`): an ordered token list plus a termination flag.
Token payloads are abstracted to `Nat`. -/
structure TextGenerationResponse where
  tokens : List Nat
  is_done : Bool
deriving DecidableEq

/-- A value stored in an output frame: either a generated token
(`TextResponse`, abstracted) or the `STOP_STREAM` sentinel. -/
inductive StreamItem where
  | token (t : Nat)
  | stop
deriving DecidableEq

/-- One output frame: a mapping from request id to token-or-stop, modelled as
an insertion-ordered association list (a Python `dict`). -/
abbrev Frame := List (String × StreamItem)

/-- Externally visible effects performed by the scheduler, recorded in order:
`paged_manager.external_claim`, `paged_manager.prefetch` (with its result) and
`pipeline.release`. -/
inductive Event where
  | external_claim (slot : Nat)
  | prefetch_call (rid : String) (num_steps : Int) (ok : Bool)
  | pipeline_release (rid : String)
deriving DecidableEq

/-- The scheduler's mutable state: `active_batch` (an insertion-ordered dict),
`available_cache_indices` (a set of free slot ids) and the FIFO
`preempted_decode` queue. -/
structure SchedState where
  active_batch : List (String × InputContext)
  available_cache_indices : Finset Nat
  preempted_decode : List (String × InputContext)

/-- External collaborators: the paged manager's `prefetch` (indexed by a call
counter so that repeated calls may answer differently, modelling its hidden
state), its `max_seq_len` attribute, and the generator's `next_token`. -/
structure Env where
  prefetch : Nat → InputContext → Int → Bool
  max_seq_len : Nat
  next_token : List (String × InputContext) → Int → List (String × TextGenerationResponse)

/-- Initial scheduler state (`__init__`): empty batch, all
`max_batch_size_tg` slot ids free, empty preempted queue. -/
def init_state (cfg : DecodeSchedulerConfig) : SchedState :=
  { active_batch := []
    available_cache_indices := Finset.range cfg.max_batch_size_tg
    preempted_decode := [] }

/-- Association-list lookup (`d[k]`, as an `Option`). -/
def lookupKey {β : Type} : List (String × β) → String → Option β
  | [], _ => none
  | (k, v) :: rest, key => if k = key then some v else lookupKey rest key

/-- Association-list assignment (`d[k] = v` on an ordered dict: replace in
place if present, else append at the tail). -/
def odSet {β : Type} : List (String × β) → String → β → List (String × β)
  | [], key, v => [(key, v)]
  | (k, w) :: rest, key, v =>
    if k = key then (k, v) :: rest else (k, w) :: odSet rest key v

/-- Association-list deletion (`del d[k]`): removes the first binding of the
key, leaves the list unchanged if the key is absent. -/
def eraseKey {β : Type} : List (String × β) → String → List (String × β)
  | [], _ => []
  | (k, w) :: rest, key => if k = key then rest else (k, w) :: eraseKey rest key

/-- Association-list `d.pop(k)`: the value plus the remaining list, `none`
(a `KeyError`) if the key is absent. -/
def popKey {β : Type} : List (String × β) → String → Option (β × List (String × β))
  | [], _ => none
  | (k, w) :: rest, key =>
    if k = key then some (w, rest)
    else
      match popKey rest key with
      | none => none
      | some (v, l) => some (v, (k, w) :: l)

/-- The keys of an association list, in order. -/
def batchKeys {β : Type} (l : List (String × β)) : List String :=
  l.map (fun p => p.1)

/-- `pull_from_decode_socket`: serves from the preempted queue first and only
reads the decode socket (here: the head of `decodeQ`) when that queue is
empty; `none` models `queue.Empty`. -/
def pull_from_decode_socket (st : SchedState) (decodeQ : List (String × InputContext)) :
    Option ((String × InputContext) × SchedState × List (String × InputContext)) :=
  match st.preempted_decode with
  | p :: ps => some (p, { st with preempted_decode := ps }, decodeQ)
  | [] =>
    match decodeQ with
    | [] => none
    | d :: ds => some (d, st, ds)

/-- `return_to_decode_queue`: frees the request's slot, releases the
generator state (logged), resets the context and appends it to the preempted
FIFO queue. -/
def return_to_decode_queue (st : SchedState) (request_id : String) (data : InputContext) :
    SchedState × List Event :=
  ({ st with
      available_cache_indices := insert data.cache_seq_id st.available_cache_indices
      preempted_decode := st.preempted_decode ++ [(request_id, data.reset)] },
   [Event.pipeline_release request_id])

/-- `available_cache_indices.pop()`: CPython's set pop order is unspecified,
so the minimum is taken deterministically; `none` models the `KeyError` on an
empty set (unreachable behind the loop guard). -/
def popMinSlot (s : Finset Nat) : Option (Nat × Finset Nat) :=
  if h : s.Nonempty then some (s.min' h, s.erase (s.min' h)) else none

/-- The admission half of `update_batch`: while a cache index is free, pull
the next request (preempted queue first), claim a slot if the context holds
none (logging `external_claim`), and append it to the active batch.  Returns
the new state, the unread remainder of the decode queue and the event log;
`none` models an exception escaping the loop. -/
def admitLoop (st : SchedState) (decodeQ : List (String × InputContext)) :
    Option (SchedState × List (String × InputContext) × List Event) :=
  if (st.available_cache_indices).Nonempty then
    match hpull : pull_from_decode_socket st decodeQ with
    | none => some (st, decodeQ, [])
    | some ((request_id, context), st', q') =>
      if context.is_assigned_to_cache then
        admitLoop { st' with active_batch := odSet st'.active_batch request_id context } q'
      else
        match popMinSlot st'.available_cache_indices with
        | none => none
        | some (slot, avail') =>
          match admitLoop { st' with
              available_cache_indices := avail'
              active_batch := odSet st'.active_batch request_id
                (context.assign_to_cache slot) } q' with
          | none => none
          | some (st2, q2, ev2) => some (st2, q2, Event.external_claim slot :: ev2)
  else some (st, decodeQ, [])
termination_by st.preempted_decode.length + decodeQ.length
decreasing_by
  all_goals
    unfold pull_from_decode_socket at hpull
    rcases hps : st.preempted_decode with _ | ⟨p, ps⟩ <;> rw [hps] at hpull
    · rcases hq : decodeQ with _ | ⟨d, ds⟩ <;> rw [hq] at hpull
      · exact absurd hpull (by simp)
      · obtain ⟨h1, h2, h3⟩ := by simpa using hpull
        rw [← h2, ← h3]
        simp [hps] <;> omega
    · obtain ⟨h1, h2, h3⟩ := by simpa using hpull
      rw [← h2, ← h3]
      simp [hps] <;> omega

/-- The per-candidate step bound computed in the reservation loop: the lesser
of `max_forward_steps_tg` and
`context.compute_num_available_steps(paged_manager.max_seq_len)`. -/
def reservation_num_steps (cfg : DecodeSchedulerConfig) (env : Env)
    (context : InputContext) : Int :=
  let num_available_steps := context.compute_num_available_steps env.max_seq_len
  if (cfg.max_forward_steps_tg : Int) < num_available_steps then
    (cfg.max_forward_steps_tg : Int)
  else num_available_steps

/-- The reservation half of `update_batch`, operating on the working deque of
candidate request ids.  On a prefetch success the front candidate is confirmed;
on a failure the newest remaining candidate (the deque's tail) is evicted via
`return_to_decode_queue` and the front candidate is re-inserted to be retried,
unless no other candidate remains, in which case the front candidate itself is
evicted and the phase ends.  `none` models a `KeyError`. -/
def reservationLoop (cfg : DecodeSchedulerConfig) (env : Env) (nCalls : Nat)
    (st : SchedState) (candidates : List String) : Option (SchedState × List Event) :=
  match candidates with
  | [] => some (st, [])
  | request_id :: rest =>
    match lookupKey st.active_batch request_id with
    | none => none
    | some context =>
      let num_steps := reservation_num_steps cfg env context
      if env.prefetch nCalls context num_steps then
        match reservationLoop cfg env (nCalls + 1) st rest with
        | none => none
        | some (st2, ev2) =>
          some (st2, Event.prefetch_call request_id num_steps true :: ev2)
      else
        match rest with
        | [] =>
          let se := return_to_decode_queue st request_id context
          some ({ se.1 with active_batch := eraseKey se.1.active_batch request_id },
                Event.prefetch_call request_id num_steps false :: se.2)
        | r2 :: rs =>
          let newest_request_id := (r2 :: rs).getLast (List.cons_ne_nil r2 rs)
          match popKey st.active_batch newest_request_id with
          | none => none
          | some (newest_context, batch') =>
            let se := return_to_decode_queue { st with active_batch := batch' }
                newest_request_id newest_context
            match reservationLoop cfg env (nCalls + 1) se.1
                (request_id :: (r2 :: rs).dropLast) with
            | none => none
            | some (st2, ev2) =>
              some (st2,
                Event.prefetch_call request_id num_steps false :: (se.2 ++ ev2))
termination_by candidates.length
decreasing_by
  · simp
  · simp [List.length_dropLast]

/-- `update_batch`: the admission loop followed by the reservation loop over
the batch keys in insertion order. -/
def update_batch (cfg : DecodeSchedulerConfig) (env : Env) (st : SchedState)
    (decodeQ : List (String × InputContext)) :
    Option (SchedState × List (String × InputContext) × List Event) :=
  match admitLoop st decodeQ with
  | none => none
  | some (st1, q', ev1) =>
    match reservationLoop cfg env 0 st1 (batchKeys st1.active_batch) with
    | none => none
    | some (st2, ev2) => some (st2, q', ev1 ++ ev2)

/-- The accumulator loop of `calculate_batch_num_steps`: walks the batch
contexts carrying `batch_available_steps` (initially `-1`), returning
`max_forward_steps_tg` early when a context has no `max_length`. -/
def calc_num_steps_aux (cfg : DecodeSchedulerConfig) :
    List InputContext → Int → Int
  | [], batch_available_steps =>
    if batch_available_steps > 0 ∧
        batch_available_steps < (cfg.max_forward_steps_tg : Int) then
      batch_available_steps
    else (cfg.max_forward_steps_tg : Int)
  | data :: rest, batch_available_steps =>
    match data.max_length with
    | none => (cfg.max_forward_steps_tg : Int)
    | some m =>
      let request_available_steps := data.compute_num_available_steps m
      calc_num_steps_aux cfg rest
        (if request_available_steps > batch_available_steps then
          request_available_steps
        else batch_available_steps)

/-- `calculate_batch_num_steps`: `none` models the `RuntimeError` raised on an
empty active batch. -/
def calculate_batch_num_steps (cfg : DecodeSchedulerConfig) (st : SchedState) :
    Option Int :=
  if st.active_batch.isEmpty then none
  else some (calc_num_steps_aux cfg (st.active_batch.map (fun p => p.2)) (-1))

/-- `len(response.tokens) + (1 if response.is_done else 0)`: the number of
frames a single response needs. -/
def response_frame_count (r : TextGenerationResponse) : Nat :=
  r.tokens.length + (if r.is_done then 1 else 0)

/-- The `while ... > len(stream_responses): stream_responses.append({})`
loop: pad the frame list with empty frames up to `target`. -/
def pad_frames (frames : List Frame) (target : Nat) : List Frame :=
  if frames.length < target then pad_frames (frames ++ [[]]) target else frames
termination_by target - frames.length
decreasing_by simp; omega

/-- `stream_responses[i][request_id] = v` for the frame at index `i`
(out-of-range writes never occur at the call sites). -/
def setInFrame : List Frame → Nat → String → StreamItem → List Frame
  | [], _, _, _ => []
  | f :: fs, 0, rid, v => odSet f rid v :: fs
  | f :: fs, i + 1, rid, v => f :: setInFrame fs i rid v

/-- The `for token_idx, text_response in enumerate(response.tokens)` loop:
writes each token at its frame index. -/
def write_tokens (rid : String) : List Nat → Nat → List Frame → List Frame
  | [], _, frames => frames
  | t :: ts, token_idx, frames =>
    write_tokens rid ts (token_idx + 1)
      (setInFrame frames token_idx rid (StreamItem.token t))

/-- The body of the `for request_id, response in responses.items()` loop:
pad, write the tokens, and place the stop sentinel if the request is done. -/
def process_response (frames : List Frame) (rid : String)
    (response : TextGenerationResponse) : List Frame :=
  let f1 := pad_frames frames (response_frame_count response)
  let f2 := write_tokens rid response.tokens 0 f1
  if response.is_done then setInFrame f2 response.tokens.length rid StreamItem.stop
  else f2

/-- Folds `process_response` over the responses in order. -/
def build_stream : List Frame → List (String × TextGenerationResponse) → List Frame
  | frames, [] => frames
  | frames, (rid, r) :: rest => build_stream (process_response frames rid r) rest

/-- `stream_responses_to_frontend`: emits nothing (`none`) when there are no
responses, otherwise builds the frame list starting from the single empty
frame `[{}]` and emits it as one message. -/
def stream_responses_to_frontend
    (responses : List (String × TextGenerationResponse)) : Option (List Frame) :=
  if responses.isEmpty then none else some (build_stream [[]] responses)

/-- `_handle_terminated_responses`: for every response marked done, look up
its context in the active batch (`none` models the `KeyError` on a missing
key), release the generator state (logged), return the cache slot to the free
set, and delete the request from the active batch. -/
def handle_terminated_responses (st : SchedState) :
    List (String × TextGenerationResponse) → Option (SchedState × List Event)
  | [] => some (st, [])
  | (request_id, response) :: rest =>
    if response.is_done then
      match lookupKey st.active_batch request_id with
      | none => none
      | some context =>
        match handle_terminated_responses
            { st with
                available_cache_indices :=
                  insert context.cache_seq_id st.available_cache_indices
                active_batch := eraseKey st.active_batch request_id } rest with
        | none => none
        | some (st2, ev2) => some (st2, Event.pipeline_release request_id :: ev2)
    else handle_terminated_responses st rest

/-- `schedule_batch`: run the generator once, reclaim terminated requests,
then build the outbound stream message. -/
def schedule_batch (env : Env) (st : SchedState) (num_steps : Int) :
    Option (SchedState × Option (List Frame) × List Event) :=
  let responses := env.next_token st.active_batch num_steps
  match handle_terminated_responses st responses with
  | none => none
  | some (st2, ev2) => some (st2, stream_responses_to_frontend responses, ev2)

/-- One full cycle of `run` as far as scheduler state is concerned:
`update_batch`, the empty-batch early exit, `calculate_batch_num_steps`, and
`schedule_batch`.  (`reserve_memory_and_send_to_prefill` only forwards
messages and never touches the scheduler state, so it is omitted here.) -/
def tick (cfg : DecodeSchedulerConfig) (env : Env) (st : SchedState)
    (decodeQ : List (String × InputContext)) : Option SchedState :=
  match update_batch cfg env st decodeQ with
  | none => none
  | some (st1, _q', _ev1) =>
    if st1.active_batch.isEmpty then some st1
    else
      match calculate_batch_num_steps cfg st1 with
      | none => none
      | some num_steps =>
        match schedule_batch env st1 num_steps with
        | none => none
        | some (st2, _stream, _ev2) => some st2

/-! ### Observers and specification-side definitions -/

/-- The value the frame at index `i` holds for `rid` (`none`: the request id
is absent from that frame, or the index is past the end). -/
def frameGet (frames : List Frame) (i : Nat) (rid : String) : Option StreamItem :=
  lookupKey (frames.getD i []) rid

/-- The maximum over the responses of `response_frame_count` (0 when there
are none): the frame count the spec's §4.7 sentence describes. -/
def max_response_frames (responses : List (String × TextGenerationResponse)) : Nat :=
  responses.foldl (fun acc p => max acc (response_frame_count p.2)) 0

/-- Whether an event is a `pipeline.release` call (an eviction or a
termination reclamation). -/
def is_release_event : Event → Bool
  | Event.pipeline_release _ => true
  | _ => false

/-- How many `pipeline.release` calls an event log records. -/
def num_evictions (ev : List Event) : Nat :=
  (ev.filter is_release_event).length

/-- Whether every prefetch call recorded in the log succeeded. -/
def prefetch_all_ok (ev : List Event) : Bool :=
  ev.all fun e =>
    match e with
    | Event.prefetch_call _ _ ok => ok
    | _ => true

/-- The slot ids currently claimed by active-batch members, in batch order. -/
def claimedList (st : SchedState) : List Nat :=
  st.active_batch.map (fun p => p.2.cache_seq_id)

/-- The slot/batch bookkeeping invariant of the scheduler state: batch keys
are distinct, every member is assigned a slot, the claimed slots are distinct,
claimed and free slots are disjoint and together cover exactly
`range max_batch_size_tg`, and the preempted queue has distinct keys disjoint
from the batch, all of its members unassigned. -/
structure SlotInv (cfg : DecodeSchedulerConfig) (st : SchedState) : Prop where
  keys_nodup : (batchKeys st.active_batch).Nodup
  assigned : ∀ p ∈ st.active_batch, p.2.is_assigned_to_cache = true
  claimed_nodup : (claimedList st).Nodup
  claimed_lt : ∀ s ∈ claimedList st, s < cfg.max_batch_size_tg
  avail_lt : ∀ s ∈ st.available_cache_indices, s < cfg.max_batch_size_tg
  disj : ∀ s ∈ claimedList st, s ∉ st.available_cache_indices
  cover : ∀ s, s < cfg.max_batch_size_tg →
    s ∈ st.available_cache_indices ∨ s ∈ claimedList st
  pre_nodup : (batchKeys st.preempted_decode).Nodup
  pre_disj : ∀ k ∈ batchKeys st.preempted_decode, k ∉ batchKeys st.active_batch
  pre_unassigned : ∀ p ∈ st.preempted_decode, p.2.is_assigned_to_cache = false

/-- Modelled from the spec: the generator "receives, per request, an ordered
list of generated tokens ... and a termination flag", so `next_token` answers
exactly for requests of the batch it was handed, each at most once. -/
def EnvOk (env : Env) : Prop :=
  ∀ b k, (batchKeys (env.next_token b k)).Nodup ∧
    ∀ r ∈ batchKeys (env.next_token b k), r ∈ batchKeys b

/-- Modelled from the spec: requests arriving on the decode queue hold no
cache slot yet ("a cache-slot assignment (unset until claimed)") and carry
fresh, distinct request ids. -/
def QueueOk (st : SchedState) (decodeQ : List (String × InputContext)) : Prop :=
  (∀ p ∈ decodeQ, p.2.is_assigned_to_cache = false) ∧
  (batchKeys decodeQ).Nodup ∧
  (∀ k ∈ batchKeys decodeQ,
    k ∉ batchKeys st.active_batch ∧ k ∉ batchKeys st.preempted_decode)

/-- A member's "number of available steps before exhausting its own
remaining-length budget". -/
def member_available_steps (c : InputContext) : Int :=
  c.compute_num_available_steps (c.max_length.getD 0)

/-- The maximum of `member_available_steps` over a (nonempty) batch. -/
def members_max_steps : List InputContext → Int
  | [] => 0
  | c :: rest =>
    rest.foldl (fun acc d => max acc (member_available_steps d))
      (member_available_steps c)

/-- `members_max_steps` generalized over the accumulator's starting value
(a proof device for relating `calc_num_steps_aux` to the spec's maximum). -/
def maxAcc (l : List InputContext) (b : Int) : Int :=
  l.foldl (fun acc d => max acc (member_available_steps d)) b

/-- The step plan exactly as the spec's §4.4 sentence states it: the
configured per-tick maximum if any member lacks a remaining-length budget,
otherwise the members' maximum whenever it is strictly less than the
configured per-tick maximum, else the configured maximum. -/
def plan_spec_claim (cfg : DecodeSchedulerConfig) (ctxs : List InputContext) : Int :=
  if ctxs.any (fun c => c.max_length.isNone) then (cfg.max_forward_steps_tg : Int)
  else if members_max_steps ctxs < (cfg.max_forward_steps_tg : Int) then
    members_max_steps ctxs
  else (cfg.max_forward_steps_tg : Int)

/-- The step plan amended to match the code: the members' maximum is used
only when it is strictly positive as well as strictly below the configured
per-tick maximum. -/
def plan_spec_amended (cfg : DecodeSchedulerConfig) (ctxs : List InputContext) : Int :=
  if ctxs.any (fun c => c.max_length.isNone) then (cfg.max_forward_steps_tg : Int)
  else if 0 < members_max_steps ctxs ∧
      members_max_steps ctxs < (cfg.max_forward_steps_tg : Int) then
    members_max_steps ctxs
  else (cfg.max_forward_steps_tg : Int)

/-! ### Association-list lemmas -/

theorem lookupKey_mem {β : Type} {l : List (String × β)} {k : String} {v : β}
    (h : lookupKey l k = some v) : (k, v) ∈ l := by
  induction l with
  | nil => simp [lookupKey] at h
  | cons p rest ih =>
    obtain ⟨k0, w⟩ := p
    by_cases hk : k0 = k
    · subst hk
      simp [lookupKey] at h
      simp [h]
    · simp [lookupKey, hk] at h
      exact List.mem_cons_of_mem _ (ih h)

theorem lookupKey_eq_none {β : Type} {l : List (String × β)} {k : String} :
    lookupKey l k = none ↔ k ∉ batchKeys l := by
  induction l with
  | nil => simp [lookupKey, batchKeys]
  | cons p rest ih =>
    obtain ⟨k0, w⟩ := p
    by_cases hk : k0 = k
    · subst hk
      simp [lookupKey, batchKeys]
    · simp [lookupKey, hk, batchKeys] at ih ⊢
      exact ⟨fun h => ⟨fun he => hk he.symm, ih.mp h⟩, fun h => ih.mpr h.2⟩

theorem lookupKey_isSome_of_mem_keys {β : Type} {l : List (String × β)} {k : String}
    (h : k ∈ batchKeys l) : ∃ v, lookupKey l k = some v := by
  cases hl : lookupKey l k with
  | none => exact absurd h (lookupKey_eq_none.mp hl)
  | some v => exact ⟨v, rfl⟩

theorem mem_keys_of_lookupKey {β : Type} {l : List (String × β)} {k : String} {v : β}
    (h : lookupKey l k = some v) : k ∈ batchKeys l := by
  by_contra hk
  rw [lookupKey_eq_none.mpr hk] at h
  exact Option.noConfusion h

theorem odSet_of_not_mem {β : Type} {l : List (String × β)} {k : String} {v : β}
    (h : k ∉ batchKeys l) : odSet l k v = l ++ [(k, v)] := by
  induction l with
  | nil => simp [odSet]
  | cons p rest ih =>
    obtain ⟨k0, w⟩ := p
    simp only [batchKeys, List.map_cons, List.mem_cons] at h
    push_neg at h
    have hne : ¬ k0 = k := fun he => h.1 he.symm
    have hrest : k ∉ batchKeys rest := by simpa [batchKeys] using h.2
    simp [odSet, hne, ih hrest]

theorem eraseKey_of_not_mem {β : Type} {l : List (String × β)} {k : String}
    (h : k ∉ batchKeys l) : eraseKey l k = l := by
  induction l with
  | nil => simp [eraseKey]
  | cons p rest ih =>
    obtain ⟨k0, w⟩ := p
    simp only [batchKeys, List.map_cons, List.mem_cons] at h
    push_neg at h
    have hne : ¬ k0 = k := fun he => h.1 he.symm
    have hrest : k ∉ batchKeys rest := by simpa [batchKeys] using h.2
    simp [eraseKey, hne, ih hrest]

theorem mem_of_mem_eraseKey {β : Type} {l : List (String × β)} {k : String}
    {p : String × β} (h : p ∈ eraseKey l k) : p ∈ l := by
  induction l with
  | nil => simp [eraseKey] at h
  | cons q rest ih =>
    obtain ⟨k0, w⟩ := q
    by_cases hk : k0 = k
    · simp [eraseKey, hk] at h
      exact List.mem_cons_of_mem _ h
    · simp [eraseKey, hk] at h
      rcases h with h | h
      · simp [h]
      · exact List.mem_cons_of_mem _ (ih h)

theorem eraseKey_perm {β : Type} {l : List (String × β)} {k : String} {v : β}
    (h : lookupKey l k = some v) : l.Perm ((k, v) :: eraseKey l k) := by
  induction l with
  | nil => simp [lookupKey] at h
  | cons p rest ih =>
    obtain ⟨k0, w⟩ := p
    by_cases hk : k0 = k
    · subst hk
      simp [lookupKey] at h
      subst h
      simp [eraseKey]
    · simp [lookupKey, hk] at h
      have hperm := ih h
      simp only [eraseKey, hk, if_neg hk]
      exact (List.Perm.cons _ hperm).trans (List.Perm.swap _ _ _)

theorem lookupKey_eraseKey_other {β : Type} {l : List (String × β)} {k k' : String}
    (h : k' ≠ k) : lookupKey (eraseKey l k) k' = lookupKey l k' := by
  induction l with
  | nil => simp [eraseKey]
  | cons p rest ih =>
    obtain ⟨k0, w⟩ := p
    by_cases hk : k0 = k
    · subst hk
      have hne : ¬ k0 = k' := fun he => h (he ▸ rfl)
      simp [eraseKey, lookupKey, hne]
    · by_cases hk' : k0 = k'
      · simp [eraseKey, hk, lookupKey, hk', h]
      · simp [eraseKey, hk, lookupKey, hk', ih]

theorem popKey_eq {β : Type} {l : List (String × β)} {k : String} {v : β}
    {l' : List (String × β)} (h : popKey l k = some (v, l')) :
    lookupKey l k = some v ∧ l' = eraseKey l k := by
  induction l generalizing l' with
  | nil => simp [popKey] at h
  | cons p rest ih =>
    obtain ⟨k0, w⟩ := p
    by_cases hk : k0 = k
    · subst hk
      simp [popKey] at h
      simp [lookupKey, eraseKey, h.1, h.2.symm]
    · simp [popKey, hk] at h
      cases hrec : popKey rest k with
      | none => rw [hrec] at h; simp at h
      | some res =>
        obtain ⟨v0, l0⟩ := res
        rw [hrec] at h
        simp at h
        obtain ⟨hv, hl⟩ := h
        subst hv
        obtain ⟨h1, h2⟩ := ih hrec
        simp [lookupKey, hk, eraseKey, h1, ← hl, h2]

theorem popKey_isSome_of_mem {β : Type} {l : List (String × β)} {k : String}
    (h : k ∈ batchKeys l) : ∃ v l', popKey l k = some (v, l') := by
  induction l with
  | nil => simp [batchKeys] at h
  | cons p rest ih =>
    obtain ⟨k0, w⟩ := p
    by_cases hk : k0 = k
    · subst hk
      exact ⟨w, rest, by simp [popKey]⟩
    · simp [batchKeys] at h
      rcases h with h | h
      · exact absurd h.symm hk
      · obtain ⟨v, l', hrec⟩ := ih (by simpa [batchKeys] using h)
        exact ⟨v, (k0, w) :: l', by simp [popKey, hk, hrec]⟩

theorem batchKeys_append {β : Type} (l l' : List (String × β)) :
    batchKeys (l ++ l') = batchKeys l ++ batchKeys l' := by
  simp [batchKeys]

theorem batchKeys_eraseKey_perm {β : Type} {l : List (String × β)} {k : String} {v : β}
    (h : lookupKey l k = some v) :
    (batchKeys l).Perm (k :: batchKeys (eraseKey l k)) := by
  have := (eraseKey_perm h).map (fun p => p.1)
  simpa [batchKeys] using this

theorem claimed_eraseKey_perm {β : Type} (f : String × β → Nat)
    {l : List (String × β)} {k : String} {v : β}
    (h : lookupKey l k = some v) :
    (l.map f).Perm (f (k, v) :: (eraseKey l k).map f) := by
  simpa using (eraseKey_perm h).map f

theorem not_mem_keys_eraseKey {β : Type} {l : List (String × β)} {k : String}
    (hnd : (batchKeys l).Nodup) : k ∉ batchKeys (eraseKey l k) := by
  induction l with
  | nil => simp [eraseKey, batchKeys]
  | cons p rest ih =>
    obtain ⟨k0, w⟩ := p
    simp [batchKeys] at hnd
    by_cases hk : k0 = k
    · subst hk
      simp [eraseKey]
      intro hmem
      simp [batchKeys] at hmem
      obtain ⟨b, hb⟩ := hmem
      exact hnd.1 b hb
    · simp [eraseKey, hk, batchKeys]
      constructor
      · exact fun he => hk he.symm
      · have := ih hnd.2
        simpa [batchKeys] using this

theorem mem_keys_eraseKey_of_ne {β : Type} {l : List (String × β)} {k k' : String}
    (h : k' ≠ k) (hm : k' ∈ batchKeys l) : k' ∈ batchKeys (eraseKey l k) := by
  obtain ⟨v, hv⟩ := lookupKey_isSome_of_mem_keys hm
  have : lookupKey (eraseKey l k) k' = some v := by
    rw [lookupKey_eraseKey_other h]; exact hv
  exact mem_keys_of_lookupKey this

theorem lookupKey_odSet_self {β : Type} (l : List (String × β)) (k : String) (v : β) :
    lookupKey (odSet l k v) k = some v := by
  induction l with
  | nil => simp [odSet, lookupKey]
  | cons p rest ih =>
    obtain ⟨k0, w⟩ := p
    by_cases hk : k0 = k
    · simp [odSet, hk, lookupKey]
    · simp [odSet, hk, lookupKey, ih]

theorem lookupKey_odSet_other {β : Type} {l : List (String × β)} {k k' : String}
    (h : k' ≠ k) (v : β) : lookupKey (odSet l k v) k' = lookupKey l k' := by
  induction l with
  | nil =>
    have hne : ¬ k = k' := fun he => h he.symm
    simp [odSet, lookupKey, hne]
  | cons p rest ih =>
    obtain ⟨k0, w⟩ := p
    by_cases hk : k0 = k
    · subst hk
      have hne : ¬ k0 = k' := fun he => h he.symm
      simp [odSet, lookupKey, hne]
    · by_cases hk' : k0 = k'
      · simp [odSet, hk, lookupKey, hk', h]
      · simp [odSet, hk, lookupKey, hk', ih]

/-! ### Frame-construction lemmas -/

theorem setInFrame_length (fs : List Frame) (i : Nat) (rid : String) (v : StreamItem) :
    (setInFrame fs i rid v).length = fs.length := by
  induction fs generalizing i with
  | nil => simp [setInFrame]
  | cons f fs ih =>
    cases i with
    | zero => simp [setInFrame]
    | succ n => simp [setInFrame, ih]

theorem frameGet_setInFrame_self {fs : List Frame} {i : Nat} (h : i < fs.length)
    (rid : String) (v : StreamItem) :
    frameGet (setInFrame fs i rid v) i rid = some v := by
  induction fs generalizing i with
  | nil => simp at h
  | cons f fs ih =>
    cases i with
    | zero => simp [setInFrame, frameGet, lookupKey_odSet_self]
    | succ n =>
      simp only [List.length_cons] at h
      simpa [setInFrame, frameGet] using ih (show n < fs.length by omega)

theorem frameGet_setInFrame_other_rid {rid rid' : String} (h : rid' ≠ rid)
    (fs : List Frame) (i j : Nat) (v : StreamItem) :
    frameGet (setInFrame fs i rid v) j rid' = frameGet fs j rid' := by
  induction fs generalizing i j with
  | nil => simp [setInFrame]
  | cons f fs ih =>
    cases i with
    | zero =>
      cases j with
      | zero => simp [setInFrame, frameGet, lookupKey_odSet_other h]
      | succ m => simp [setInFrame, frameGet]
    | succ n =>
      cases j with
      | zero => simp [setInFrame, frameGet]
      | succ m => simpa [setInFrame, frameGet] using ih n m

theorem frameGet_setInFrame_other_idx {i j : Nat} (h : j ≠ i)
    (fs : List Frame) (rid rid' : String) (v : StreamItem) :
    frameGet (setInFrame fs i rid v) j rid' = frameGet fs j rid' := by
  induction fs generalizing i j with
  | nil => simp [setInFrame]
  | cons f fs ih =>
    cases i with
    | zero =>
      cases j with
      | zero => exact absurd rfl h
      | succ m => simp [setInFrame, frameGet]
    | succ n =>
      cases j with
      | zero => simp [setInFrame, frameGet]
      | succ m => simpa [setInFrame, frameGet] using ih (by omega)

theorem getD_replicate_nil (m i : Nat) :
    (List.replicate m ([] : Frame)).getD i [] = [] := by
  induction m generalizing i with
  | zero => simp
  | succ m ih => cases i <;> simp [List.replicate_succ, ih]

theorem pad_frames_eq (fs : List Frame) (n : Nat) :
    pad_frames fs n = fs ++ List.replicate (n - fs.length) [] := by
  generalize hd : n - fs.length = d
  induction d generalizing fs with
  | zero =>
    rw [pad_frames]
    have hnot : ¬ fs.length < n := by omega
    simp [hnot]
  | succ d ih =>
    rw [pad_frames]
    have hlt : fs.length < n := by omega
    rw [if_pos hlt, ih (fs ++ [[]]) (by simp; omega)]
    rw [List.append_assoc]
    congr 1

theorem pad_frames_length (fs : List Frame) (n : Nat) :
    (pad_frames fs n).length = max fs.length n := by
  rw [pad_frames_eq]
  simp
  omega

theorem frameGet_pad_frames (fs : List Frame) (n j : Nat) (rid : String) :
    frameGet (pad_frames fs n) j rid = frameGet fs j rid := by
  rw [pad_frames_eq]
  unfold frameGet
  by_cases h : j < fs.length
  · rw [List.getD_append _ _ _ _ h]
  · have h1 : fs.getD j [] = [] := List.getD_eq_default _ _ (by omega)
    have h2 : (fs ++ List.replicate (n - fs.length) []).getD j [] = [] := by
      rw [List.getD_append_right _ _ _ _ (by omega)]
      exact getD_replicate_nil _ _
    rw [h1, h2]

theorem write_tokens_length (rid : String) (ts : List Nat) :
    ∀ idx fs, (write_tokens rid ts idx fs).length = fs.length := by
  induction ts with
  | nil => intro idx fs; simp [write_tokens]
  | cons t ts ih => intro idx fs; simp [write_tokens, ih, setInFrame_length]

theorem frameGet_write_tokens_other_rid {rid rid' : String} (h : rid' ≠ rid)
    (ts : List Nat) : ∀ idx fs j,
    frameGet (write_tokens rid ts idx fs) j rid' = frameGet fs j rid' := by
  induction ts with
  | nil => intro idx fs j; simp [write_tokens]
  | cons t ts ih =>
    intro idx fs j
    rw [write_tokens, ih, frameGet_setInFrame_other_rid h]

theorem frameGet_write_tokens_lt (rid : String) (ts : List Nat) :
    ∀ idx fs j, j < idx → ∀ rid',
    frameGet (write_tokens rid ts idx fs) j rid' = frameGet fs j rid' := by
  induction ts with
  | nil => intro idx fs j _ rid'; simp [write_tokens]
  | cons t ts ih =>
    intro idx fs j h rid'
    rw [write_tokens, ih _ _ _ (by omega), frameGet_setInFrame_other_idx (by omega)]

theorem frameGet_write_tokens_ge (rid : String) (ts : List Nat) :
    ∀ idx fs j, idx + ts.length ≤ j → ∀ rid',
    frameGet (write_tokens rid ts idx fs) j rid' = frameGet fs j rid' := by
  induction ts with
  | nil => intro idx fs j _ rid'; simp [write_tokens]
  | cons t ts ih =>
    intro idx fs j h rid'
    simp only [List.length_cons] at h
    rw [write_tokens, ih _ _ _ (by omega), frameGet_setInFrame_other_idx (by omega)]

theorem frameGet_write_tokens_in (rid : String) (ts : List Nat) :
    ∀ idx fs j, idx ≤ j → j < idx + ts.length → j < fs.length →
    frameGet (write_tokens rid ts idx fs) j rid =
      some (StreamItem.token (ts.getD (j - idx) 0)) := by
  induction ts with
  | nil => intro idx fs j _ h2 _; simp at h2; omega
  | cons t ts ih =>
    intro idx fs j h1 h2 h3
    rw [write_tokens]
    by_cases hj : j = idx
    · subst hj
      rw [frameGet_write_tokens_lt rid ts _ _ _ (by omega)]
      have := frameGet_setInFrame_self h3 rid (StreamItem.token t)
      simpa using this
    · simp only [List.length_cons] at h2
      have := ih (idx + 1) (setInFrame fs idx rid (StreamItem.token t)) j
        (by omega) (by omega) (by rw [setInFrame_length]; exact h3)
      rw [this]
      have harith : j - idx = (j - (idx + 1)) + 1 := by omega
      rw [harith]
      simp

theorem frameGet_process_response_other {rid rid' : String} (h : rid' ≠ rid)
    (fs : List Frame) (r : TextGenerationResponse) (j : Nat) :
    frameGet (process_response fs rid r) j rid' = frameGet fs j rid' := by
  unfold process_response
  cases hd : r.is_done <;>
    simp [hd, frameGet_setInFrame_other_rid h, frameGet_write_tokens_other_rid h,
      frameGet_pad_frames]

theorem process_response_length (fs : List Frame) (rid : String)
    (r : TextGenerationResponse) :
    (process_response fs rid r).length = max fs.length (response_frame_count r) := by
  unfold process_response
  cases hd : r.is_done <;>
    simp [hd, setInFrame_length, write_tokens_length, pad_frames_length]

theorem frameGet_process_response_token {fs : List Frame} {rid : String}
    {r : TextGenerationResponse} {j : Nat} (hj : j < r.tokens.length) :
    frameGet (process_response fs rid r) j rid =
      some (StreamItem.token (r.tokens.getD j 0)) := by
  unfold process_response
  have hcnt : r.tokens.length ≤ response_frame_count r := by
    unfold response_frame_count
    exact Nat.le_add_right _ _
  have hlen : j < (pad_frames fs (response_frame_count r)).length := by
    rw [pad_frames_length]
    omega
  have hw := frameGet_write_tokens_in rid r.tokens 0 _ j (Nat.zero_le j)
    (by omega) hlen
  cases hd : r.is_done
  · simpa [hd] using hw
  · simp only [hd, if_true]
    rw [frameGet_setInFrame_other_idx (by omega)]
    simpa using hw

theorem frameGet_process_response_stop {fs : List Frame} {rid : String}
    {r : TextGenerationResponse} (hd : r.is_done = true) :
    frameGet (process_response fs rid r) r.tokens.length rid =
      some StreamItem.stop := by
  unfold process_response
  simp only [hd, if_true]
  apply frameGet_setInFrame_self
  rw [write_tokens_length, pad_frames_length]
  have : response_frame_count r = r.tokens.length + 1 := by
    simp [response_frame_count, hd]
  omega

theorem frameGet_process_response_none {fs : List Frame} {rid : String}
    {r : TextGenerationResponse} {j : Nat}
    (hnone : frameGet fs j rid = none) (hj : response_frame_count r ≤ j) :
    frameGet (process_response fs rid r) j rid = none := by
  unfold process_response
  have htok : r.tokens.length ≤ j := by
    have hle := Nat.le_add_right r.tokens.length (if r.is_done then 1 else 0)
    unfold response_frame_count at hj
    omega
  cases hd : r.is_done
  · simp only [hd, if_neg Bool.false_ne_true]
    rw [frameGet_write_tokens_ge rid r.tokens _ _ _ (by omega),
      frameGet_pad_frames]
    exact hnone
  · have hj' : j ≠ r.tokens.length := by
      simp [response_frame_count, hd] at hj
      omega
    simp only [hd, if_true]
    rw [frameGet_setInFrame_other_idx hj',
      frameGet_write_tokens_ge rid r.tokens _ _ _ (by omega),
      frameGet_pad_frames]
    exact hnone

theorem build_stream_length (resps : List (String × TextGenerationResponse)) :
    ∀ fs, (build_stream fs resps).length =
      resps.foldl (fun acc p => max acc (response_frame_count p.2)) fs.length := by
  induction resps with
  | nil => intro fs; simp [build_stream]
  | cons p rest ih =>
    intro fs
    obtain ⟨rid, r⟩ := p
    rw [build_stream, ih, process_response_length]
    rfl

theorem frameGet_build_stream_not_mem {resps : List (String × TextGenerationResponse)}
    {rid : String} (h : rid ∉ batchKeys resps) :
    ∀ fs j, frameGet (build_stream fs resps) j rid = frameGet fs j rid := by
  induction resps with
  | nil => intro fs j; simp [build_stream]
  | cons p rest ih =>
    intro fs j
    obtain ⟨k, r⟩ := p
    have hk : rid ≠ k := by
      intro he
      exact h (by simp [batchKeys, he])
    have hrest : rid ∉ batchKeys rest := by
      intro he
      exact h (by simp [batchKeys] at he ⊢; right; exact he)
    rw [build_stream, ih hrest, frameGet_process_response_other hk]

theorem build_stream_spec {resps : List (String × TextGenerationResponse)}
    (hnd : (batchKeys resps).Nodup) :
    ∀ fs, (∀ p ∈ resps, ∀ j, frameGet fs j p.1 = none) →
    ∀ p ∈ resps,
      (∀ j, j < p.2.tokens.length →
        frameGet (build_stream fs resps) j p.1 =
          some (StreamItem.token (p.2.tokens.getD j 0))) ∧
      (p.2.is_done = true →
        frameGet (build_stream fs resps) p.2.tokens.length p.1 =
          some StreamItem.stop) ∧
      (∀ j, response_frame_count p.2 ≤ j →
        frameGet (build_stream fs resps) j p.1 = none) := by
  induction resps with
  | nil => intro fs _ p hp; simp at hp
  | cons q rest ih =>
    intro fs hnone p hp
    obtain ⟨k, r⟩ := q
    have hnd' : k ∉ batchKeys rest ∧ (batchKeys rest).Nodup := by
      rw [show batchKeys ((k, r) :: rest) = k :: batchKeys rest from rfl,
        List.nodup_cons] at hnd
      exact hnd
    rcases List.mem_cons.mp hp with hp | hp
    · subst hp
      rw [build_stream]
      have hpres : ∀ j, frameGet (build_stream (process_response fs k r) rest) j k =
          frameGet (process_response fs k r) j k :=
        fun j => frameGet_build_stream_not_mem hnd'.1 _ j
      refine ⟨?_, ?_, ?_⟩
      · intro j hj
        rw [hpres j]
        exact frameGet_process_response_token hj
      · intro hdone
        rw [hpres _]
        exact frameGet_process_response_stop hdone
      · intro j hj
        rw [hpres j]
        exact frameGet_process_response_none (hnone (k, r) (by simp) j) hj
    · rw [build_stream]
      refine ih hnd'.2 (process_response fs k r) ?_ p hp
      intro p' hp' j
      have hne : p'.1 ≠ k := by
        intro he
        apply hnd'.1
        rw [← he]
        exact List.mem_map_of_mem _ hp'
      rw [frameGet_process_response_other hne]
      exact hnone p' (List.mem_cons_of_mem _ hp') j

/-! ### Step-planner lemmas -/

theorem maxAcc_max (l : List InputContext) :
    ∀ a b, maxAcc l (max a b) = max a (maxAcc l b) := by
  induction l with
  | nil => intro a b; simp [maxAcc]
  | cons c rest ih =>
    intro a b
    simp only [maxAcc, List.foldl_cons] at ih ⊢
    rw [max_assoc]
    exact ih a (max b (member_available_steps c))

theorem calc_num_steps_aux_eq (cfg : DecodeSchedulerConfig) :
    ∀ (l : List InputContext) (b : Int),
    calc_num_steps_aux cfg l b =
      if l.any (fun c => c.max_length.isNone) then (cfg.max_forward_steps_tg : Int)
      else if maxAcc l b > 0 ∧ maxAcc l b < (cfg.max_forward_steps_tg : Int) then
        maxAcc l b
      else (cfg.max_forward_steps_tg : Int) := by
  intro l
  induction l with
  | nil => intro b; simp [calc_num_steps_aux, maxAcc]
  | cons c rest ih =>
    intro b
    cases hm : c.max_length with
    | none => simp [calc_num_steps_aux, hm]
    | some m =>
      have hmem : member_available_steps c = c.compute_num_available_steps m := by
        simp [member_available_steps, hm]
      have hsel : (if c.compute_num_available_steps m > b then
          c.compute_num_available_steps m else b) = max b (member_available_steps c) := by
        rw [hmem, max_def]
        split <;> split <;> omega
      simp only [calc_num_steps_aux, hm]
      rw [hsel, ih (max b (member_available_steps c))]
      have hacc : maxAcc (c :: rest) b = maxAcc rest (max b (member_available_steps c)) := by
        simp [maxAcc]
      have hany : (c :: rest).any (fun c => c.max_length.isNone) =
          rest.any (fun c => c.max_length.isNone) := by
        simp [hm]
      rw [← hacc, ← hany]

theorem calc_num_steps_aux_le (cfg : DecodeSchedulerConfig) :
    ∀ (l : List InputContext) (b : Int),
    calc_num_steps_aux cfg l b ≤ (cfg.max_forward_steps_tg : Int) := by
  intro l
  induction l with
  | nil =>
    intro b
    simp only [calc_num_steps_aux]
    split <;> omega
  | cons c rest ih =>
    intro b
    cases hm : c.max_length with
    | none => simp [calc_num_steps_aux, hm]
    | some m =>
      simp only [calc_num_steps_aux, hm]
      exact ih _

theorem members_max_steps_cons (c : InputContext) (rest : List InputContext) :
    members_max_steps (c :: rest) = maxAcc rest (member_available_steps c) := rfl

theorem maxAcc_neg_one (c : InputContext) (rest : List InputContext) :
    maxAcc (c :: rest) (-1) = max (-1) (members_max_steps (c :: rest)) := by
  have h1 : maxAcc (c :: rest) (-1) =
      maxAcc rest (max (-1) (member_available_steps c)) := by
    simp [maxAcc]
  rw [h1, maxAcc_max rest (-1) (member_available_steps c), members_max_steps_cons]

/-- C3: corrected form.  For every non-empty active batch,
`calculate_batch_num_steps` returns exactly the amended spec plan: the
configured per-tick maximum if any member lacks a remaining-length budget,
otherwise the members' maximum of available steps whenever that maximum is
strictly positive and strictly less than the configured per-tick maximum,
else the configured per-tick maximum. -/
theorem C3_step_plan_follows_amended_spec (cfg : DecodeSchedulerConfig)
    (st : SchedState) (h : st.active_batch ≠ []) :
    calculate_batch_num_steps cfg st =
      some (plan_spec_amended cfg (st.active_batch.map (fun p => p.2))) := by
  unfold calculate_batch_num_steps
  rw [if_neg (by simpa [List.isEmpty_iff] using h)]
  congr 1
  rw [calc_num_steps_aux_eq]
  unfold plan_spec_amended
  cases hl : st.active_batch.map (fun p => p.2) with
  | nil => exact absurd (by simpa using hl) h
  | cons c rest =>
    by_cases hany : (c :: rest).any (fun c => c.max_length.isNone)
    · simp [hany]
    · rw [if_neg hany, if_neg hany]
      rw [maxAcc_neg_one c rest]
      by_cases hpos : 0 < members_max_steps (c :: rest)
      · rw [max_eq_right (by omega)]
      · have h1 : ¬ (max (-1) (members_max_steps (c :: rest)) > 0 ∧
            max (-1) (members_max_steps (c :: rest)) <
              (cfg.max_forward_steps_tg : Int)) := by
          intro hx
          have := le_max_left (-1 : Int) (members_max_steps (c :: rest))
          have := max_le (by omega : (-1 : Int) ≤ 0)
            (by omega : members_max_steps (c :: rest) ≤ 0)
          omega
        have h2 : ¬ (0 < members_max_steps (c :: rest) ∧
            members_max_steps (c :: rest) < (cfg.max_forward_steps_tg : Int)) := by
          intro hx
          exact hpos hx.1
        rw [if_neg h1, if_neg h2]

/-- C3 witness: a concrete one-member batch with a finite remaining-length
budget, exercising the amended step-plan equality. -/
theorem C3_witness :
    ({ active_batch := [("a",
        { cache_seq_id := 0, is_assigned_to_cache := true, max_length := some 7,
          compute_num_available_steps := fun _ => 3 })],
       available_cache_indices := ∅,
       preempted_decode := [] } : SchedState).active_batch ≠ [] ∧
    calculate_batch_num_steps { max_batch_size_tg := 1, max_forward_steps_tg := 10 }
      { active_batch := [("a",
          { cache_seq_id := 0, is_assigned_to_cache := true, max_length := some 7,
            compute_num_available_steps := fun _ => 3 })],
        available_cache_indices := ∅,
        preempted_decode := [] } =
      some (plan_spec_amended { max_batch_size_tg := 1, max_forward_steps_tg := 10 }
        ([("a", ({ cache_seq_id := 0, is_assigned_to_cache := true, max_length := some 7,
                   compute_num_available_steps := fun _ => 3 } : InputContext))].map
          (fun p => p.2))) :=
  ⟨List.cons_ne_nil _ _,
    C3_step_plan_follows_amended_spec _ _ (List.cons_ne_nil _ _)⟩

/-- C3 counterexample: with a single member whose remaining-length budget
admits 0 further steps and a configured per-tick maximum of 10, the claim's
plan (the members' maximum, 0, being strictly below 10) differs from the
code's result (10): the code additionally requires the members' maximum to be
strictly positive. -/
theorem C3_counterexample :
    calculate_batch_num_steps { max_batch_size_tg := 1, max_forward_steps_tg := 10 }
      { active_batch := [("a",
          { cache_seq_id := 0, is_assigned_to_cache := true, max_length := some 5,
            compute_num_available_steps := fun _ => 0 })],
        available_cache_indices := ∅,
        preempted_decode := [] } = some 10 ∧
    plan_spec_claim { max_batch_size_tg := 1, max_forward_steps_tg := 10 }
      [({ cache_seq_id := 0, is_assigned_to_cache := true, max_length := some 5,
          compute_num_available_steps := fun _ => 0 } : InputContext)] = 0 ∧
    (10 : Int) ≠ 0 := by
  refine ⟨rfl, rfl, by decide⟩

/-- C8: for every batch on which `calculate_batch_num_steps` returns
normally, the planned step count never exceeds `max_forward_steps_tg`. -/
theorem C8_step_plan_bound (cfg : DecodeSchedulerConfig) (st : SchedState)
    (r : Int) (h : calculate_batch_num_steps cfg st = some r) :
    r ≤ (cfg.max_forward_steps_tg : Int) := by
  unfold calculate_batch_num_steps at h
  by_cases he : st.active_batch.isEmpty
  · rw [if_pos he] at h
    exact absurd h (by simp)
  · rw [if_neg he] at h
    have := calc_num_steps_aux_le cfg (st.active_batch.map (fun p => p.2)) (-1)
    simp only [Option.some.injEq] at h
    omega

/-- C8 witness: a concrete two-member batch whose plan, 4, stays within the
configured per-tick maximum 10. -/
theorem C8_witness :
    calculate_batch_num_steps { max_batch_size_tg := 2, max_forward_steps_tg := 10 }
      { active_batch := [
          ("a", { cache_seq_id := 0, is_assigned_to_cache := true, max_length := some 9,
                  compute_num_available_steps := fun _ => 2 }),
          ("b", { cache_seq_id := 1, is_assigned_to_cache := true, max_length := some 9,
                  compute_num_available_steps := fun _ => 4 })],
        available_cache_indices := ∅,
        preempted_decode := [] } = some 4 ∧
    (4 : Int) ≤ ((10 : Nat) : Int) :=
  ⟨rfl, C8_step_plan_bound { max_batch_size_tg := 2, max_forward_steps_tg := 10 }
    { active_batch := [
        ("a", { cache_seq_id := 0, is_assigned_to_cache := true, max_length := some 9,
                compute_num_available_steps := fun _ => 2 }),
        ("b", { cache_seq_id := 1, is_assigned_to_cache := true, max_length := some 9,
                compute_num_available_steps := fun _ => 4 })],
      available_cache_indices := ∅,
      preempted_decode := [] } 4 rfl⟩

/-- C9: `calculate_batch_num_steps` raises (returns `none`, modelling the
`RuntimeError`) exactly when the active batch is empty; on every non-empty
batch it returns normally. -/
theorem C9_empty_batch_error_iff (cfg : DecodeSchedulerConfig) (st : SchedState) :
    calculate_batch_num_steps cfg st = none ↔ st.active_batch = [] := by
  unfold calculate_batch_num_steps
  by_cases he : st.active_batch.isEmpty
  · rw [if_pos he]
    simpa [List.isEmpty_iff] using he
  · rw [if_neg he]
    constructor
    · intro hx
      exact absurd hx (by simp)
    · intro hx
      exact absurd hx (by simpa [List.isEmpty_iff] using he)

/-! ### Event-log lemmas -/

theorem num_evictions_nil : num_evictions [] = 0 := rfl

theorem num_evictions_prefetch_cons (rid : String) (nsteps : Int) (ok : Bool)
    (ev : List Event) :
    num_evictions (Event.prefetch_call rid nsteps ok :: ev) = num_evictions ev := by
  simp [num_evictions, is_release_event]

theorem num_evictions_release_cons (rid : String) (ev : List Event) :
    num_evictions (Event.pipeline_release rid :: ev) = num_evictions ev + 1 := by
  simp [num_evictions, is_release_event]

theorem num_evictions_claim_cons (slot : Nat) (ev : List Event) :
    num_evictions (Event.external_claim slot :: ev) = num_evictions ev := by
  simp [num_evictions, is_release_event]

theorem prefetch_all_ok_false_cons (rid : String) (nsteps : Int) (ev : List Event) :
    prefetch_all_ok (Event.prefetch_call rid nsteps false :: ev) = false := by
  simp [prefetch_all_ok]

theorem prefetch_all_ok_true_cons (rid : String) (nsteps : Int) (ev : List Event) :
    prefetch_all_ok (Event.prefetch_call rid nsteps true :: ev) = prefetch_all_ok ev := by
  simp [prefetch_all_ok]

/-! ### One-step equations of the reservation loop -/

theorem reservationLoop_nil (cfg : DecodeSchedulerConfig) (env : Env)
    (nCalls : Nat) (st : SchedState) :
    reservationLoop cfg env nCalls st [] = some (st, []) := by
  rw [reservationLoop]

theorem reservationLoop_cons_missing (cfg : DecodeSchedulerConfig) (env : Env)
    {nCalls : Nat} {st : SchedState} {request_id : String} {rest : List String}
    (hlook : lookupKey st.active_batch request_id = none) :
    reservationLoop cfg env nCalls st (request_id :: rest) = none := by
  rw [reservationLoop]
  simp [hlook]

theorem reservationLoop_cons_success (cfg : DecodeSchedulerConfig) (env : Env)
    {nCalls : Nat} {st : SchedState} {request_id : String} {rest : List String}
    {context : InputContext}
    (hlook : lookupKey st.active_batch request_id = some context)
    (hpf : env.prefetch nCalls context (reservation_num_steps cfg env context) = true) :
    reservationLoop cfg env nCalls st (request_id :: rest) =
      (reservationLoop cfg env (nCalls + 1) st rest).map
        (fun p => (p.1, Event.prefetch_call request_id
          (reservation_num_steps cfg env context) true :: p.2)) := by
  rw [reservationLoop]
  simp only [hlook, hpf, if_true]
  cases hres : reservationLoop cfg env (nCalls + 1) st rest with
  | none => simp
  | some p => obtain ⟨st2, ev2⟩ := p; simp

theorem reservationLoop_cons_fail_alone (cfg : DecodeSchedulerConfig) (env : Env)
    {nCalls : Nat} {st : SchedState} {request_id : String} {context : InputContext}
    (hlook : lookupKey st.active_batch request_id = some context)
    (hpf : env.prefetch nCalls context (reservation_num_steps cfg env context) = false) :
    reservationLoop cfg env nCalls st [request_id] =
      some ({ active_batch := eraseKey st.active_batch request_id
              available_cache_indices :=
                insert context.cache_seq_id st.available_cache_indices
              preempted_decode :=
                st.preempted_decode ++ [(request_id, context.reset)] },
            [Event.prefetch_call request_id
               (reservation_num_steps cfg env context) false,
             Event.pipeline_release request_id]) := by
  rw [reservationLoop]
  simp [hlook, hpf, return_to_decode_queue]

theorem reservationLoop_cons_fail_evict (cfg : DecodeSchedulerConfig) (env : Env)
    {nCalls : Nat} {st : SchedState} {request_id : String} {r2 : String}
    {rs : List String} {context newest_context : InputContext}
    {batch' : List (String × InputContext)}
    (hlook : lookupKey st.active_batch request_id = some context)
    (hpf : env.prefetch nCalls context (reservation_num_steps cfg env context) = false)
    (hpop : popKey st.active_batch ((r2 :: rs).getLast (List.cons_ne_nil r2 rs)) =
      some (newest_context, batch')) :
    reservationLoop cfg env nCalls st (request_id :: r2 :: rs) =
      (reservationLoop cfg env (nCalls + 1)
          { active_batch := batch'
            available_cache_indices :=
              insert newest_context.cache_seq_id st.available_cache_indices
            preempted_decode := st.preempted_decode ++
              [((r2 :: rs).getLast (List.cons_ne_nil r2 rs), newest_context.reset)] }
          (request_id :: (r2 :: rs).dropLast)).map
        (fun p => (p.1,
          Event.prefetch_call request_id (reservation_num_steps cfg env context) false ::
          Event.pipeline_release ((r2 :: rs).getLast (List.cons_ne_nil r2 rs)) :: p.2)) := by
  rw [reservationLoop]
  simp only [hlook, hpf, Bool.false_eq_true, if_false, return_to_decode_queue]
  rw [hpop]
  cases hres : reservationLoop cfg env (nCalls + 1)
      { active_batch := batch'
        available_cache_indices :=
          insert newest_context.cache_seq_id st.available_cache_indices
        preempted_decode := st.preempted_decode ++
          [((r2 :: rs).getLast (List.cons_ne_nil r2 rs), newest_context.reset)] }
      (request_id :: (r2 :: rs).dropLast) with
  | none => simp [hres]
  | some p => obtain ⟨st2, ev2⟩ := p; simp [hres]

theorem reservationLoop_cons_fail_pop_missing (cfg : DecodeSchedulerConfig) (env : Env)
    {nCalls : Nat} {st : SchedState} {request_id : String} {r2 : String}
    {rs : List String} {context : InputContext}
    (hlook : lookupKey st.active_batch request_id = some context)
    (hpf : env.prefetch nCalls context (reservation_num_steps cfg env context) = false)
    (hpop : popKey st.active_batch ((r2 :: rs).getLast (List.cons_ne_nil r2 rs)) = none) :
    reservationLoop cfg env nCalls st (request_id :: r2 :: rs) = none := by
  rw [reservationLoop]
  simp [hlook, hpf, hpop]

theorem reservationLoop_evictions_le (cfg : DecodeSchedulerConfig) (env : Env) :
    ∀ (n : Nat) (cands : List String) (nCalls : Nat) (st st' : SchedState)
      (ev : List Event),
    cands.length ≤ n →
    reservationLoop cfg env nCalls st cands = some (st', ev) →
    num_evictions ev ≤ cands.length := by
  intro n
  induction n with
  | zero =>
    intro cands nCalls st st' ev hle h
    have hnil : cands = [] := List.length_eq_zero.mp (by omega)
    subst hnil
    rw [reservationLoop_nil] at h
    simp at h
    obtain ⟨h1, h2⟩ := h
    subst h2
    simp [num_evictions]
  | succ n ih =>
    intro cands nCalls st st' ev hle h
    rcases cands with _ | ⟨request_id, rest⟩
    · rw [reservationLoop_nil] at h
      simp at h
      obtain ⟨h1, h2⟩ := h
      subst h2
      simp [num_evictions]
    · cases hlook : lookupKey st.active_batch request_id with
      | none =>
        rw [reservationLoop_cons_missing cfg env hlook] at h
        exact absurd h (by simp)
      | some context =>
        cases hpf : env.prefetch nCalls context (reservation_num_steps cfg env context) with
        | true =>
          rw [reservationLoop_cons_success cfg env hlook hpf] at h
          rw [Option.map_eq_some'] at h
          obtain ⟨⟨st2, ev2⟩, hres, hfa⟩ := h
          simp at hfa
          obtain ⟨h1, h2⟩ := hfa
          subst h2
          rw [num_evictions_prefetch_cons]
          have := ih rest (nCalls + 1) st st2 ev2
            (by simp only [List.length_cons] at hle; omega) hres
          simp only [List.length_cons]
          omega
        | false =>
          rcases rest with _ | ⟨r2, rs⟩
          · rw [reservationLoop_cons_fail_alone cfg env hlook hpf] at h
            simp at h
            obtain ⟨h1, h2⟩ := h
            subst h2
            simp [num_evictions, is_release_event]
          · cases hpop : popKey st.active_batch
                ((r2 :: rs).getLast (List.cons_ne_nil r2 rs)) with
            | none =>
              rw [reservationLoop_cons_fail_pop_missing cfg env hlook hpf hpop] at h
              exact absurd h (by simp)
            | some q =>
              obtain ⟨newest_context, batch'⟩ := q
              rw [reservationLoop_cons_fail_evict cfg env hlook hpf hpop] at h
              rw [Option.map_eq_some'] at h
              obtain ⟨⟨st2, ev2⟩, hres, hfa⟩ := h
              simp at hfa
              obtain ⟨h1, h2⟩ := hfa
              subst h2
              rw [num_evictions_prefetch_cons, num_evictions_release_cons]
              have := ih (request_id :: (r2 :: rs).dropLast) (nCalls + 1) _ st2 ev2
                (by simp only [List.length_cons, List.length_dropLast] at hle ⊢; omega)
                hres
              simp only [List.length_cons, List.length_dropLast] at this ⊢
              omega

theorem reservationLoop_all_ok_frame (cfg : DecodeSchedulerConfig) (env : Env) :
    ∀ (n : Nat) (cands : List String) (nCalls : Nat) (st st' : SchedState)
      (ev : List Event),
    cands.length ≤ n →
    reservationLoop cfg env nCalls st cands = some (st', ev) →
    prefetch_all_ok ev = true →
    st' = st ∧ num_evictions ev = 0 := by
  intro n
  induction n with
  | zero =>
    intro cands nCalls st st' ev hle h hok
    have hnil : cands = [] := List.length_eq_zero.mp (by omega)
    subst hnil
    rw [reservationLoop_nil] at h
    simp at h
    obtain ⟨h1, h2⟩ := h
    subst h2
    exact ⟨h1.symm, by simp [num_evictions]⟩
  | succ n ih =>
    intro cands nCalls st st' ev hle h hok
    rcases cands with _ | ⟨request_id, rest⟩
    · rw [reservationLoop_nil] at h
      simp at h
      obtain ⟨h1, h2⟩ := h
      subst h2
      exact ⟨h1.symm, by simp [num_evictions]⟩
    · cases hlook : lookupKey st.active_batch request_id with
      | none =>
        rw [reservationLoop_cons_missing cfg env hlook] at h
        exact absurd h (by simp)
      | some context =>
        cases hpf : env.prefetch nCalls context (reservation_num_steps cfg env context) with
        | true =>
          rw [reservationLoop_cons_success cfg env hlook hpf] at h
          rw [Option.map_eq_some'] at h
          obtain ⟨⟨st2, ev2⟩, hres, hfa⟩ := h
          simp at hfa
          obtain ⟨h1, h2⟩ := hfa
          subst h2
          rw [prefetch_all_ok_true_cons] at hok
          have := ih rest (nCalls + 1) st st2 ev2
            (by simp only [List.length_cons] at hle; omega) hres hok
          refine ⟨h1 ▸ this.1, ?_⟩
          rw [num_evictions_prefetch_cons]
          exact this.2
        | false =>
          rcases rest with _ | ⟨r2, rs⟩
          · rw [reservationLoop_cons_fail_alone cfg env hlook hpf] at h
            simp at h
            obtain ⟨h1, h2⟩ := h
            subst h2
            rw [prefetch_all_ok_false_cons] at hok
            exact absurd hok (by simp)
          · cases hpop : popKey st.active_batch
                ((r2 :: rs).getLast (List.cons_ne_nil r2 rs)) with
            | none =>
              rw [reservationLoop_cons_fail_pop_missing cfg env hlook hpf hpop] at h
              exact absurd h (by simp)
            | some q =>
              obtain ⟨newest_context, batch'⟩ := q
              rw [reservationLoop_cons_fail_evict cfg env hlook hpf hpop] at h
              rw [Option.map_eq_some'] at h
              obtain ⟨⟨st2, ev2⟩, hres, hfa⟩ := h
              simp at hfa
              obtain ⟨h1, h2⟩ := hfa
              subst h2
              rw [prefetch_all_ok_false_cons] at hok
              exact absurd hok (by simp)

/-- C1: one step of the reservation phase on a prefetch failure for the front
candidate `request_id`.  If at least one other candidate remains, the evicted
request is the tail of the working list (the most recently admitted remaining
candidate): its slot returns to the pool, the generator releases its state,
its progress is reset and it joins the PreemptedSet, it leaves the
ActiveBatchRegistry, and the failing candidate is re-inserted at the front of
the continuation's working list to be retried.  If no other candidate
remains, the failing candidate itself is evicted with those same steps and the
phase ends with exactly that state. -/
theorem C1_preemption_policy (cfg : DecodeSchedulerConfig) (env : Env)
    (nCalls : Nat) (st : SchedState) (request_id : String) (rest : List String)
    (context : InputContext)
    (hlook : lookupKey st.active_batch request_id = some context)
    (hpf : env.prefetch nCalls context (reservation_num_steps cfg env context) = false) :
    (rest = [] →
      reservationLoop cfg env nCalls st (request_id :: rest) =
        some ({ active_batch := eraseKey st.active_batch request_id
                available_cache_indices :=
                  insert context.cache_seq_id st.available_cache_indices
                preempted_decode :=
                  st.preempted_decode ++ [(request_id, context.reset)] },
              [Event.prefetch_call request_id
                 (reservation_num_steps cfg env context) false,
               Event.pipeline_release request_id])) ∧
    (∀ r2 rs, rest = r2 :: rs →
      ∀ newest_context batch',
        popKey st.active_batch ((r2 :: rs).getLast (List.cons_ne_nil r2 rs)) =
          some (newest_context, batch') →
        reservationLoop cfg env nCalls st (request_id :: rest) =
          (reservationLoop cfg env (nCalls + 1)
              { active_batch := batch'
                available_cache_indices :=
                  insert newest_context.cache_seq_id st.available_cache_indices
                preempted_decode := st.preempted_decode ++
                  [((r2 :: rs).getLast (List.cons_ne_nil r2 rs),
                    newest_context.reset)] }
              (request_id :: (r2 :: rs).dropLast)).map
            (fun p => (p.1,
              Event.prefetch_call request_id
                (reservation_num_steps cfg env context) false ::
              Event.pipeline_release
                ((r2 :: rs).getLast (List.cons_ne_nil r2 rs)) :: p.2))) := by
  constructor
  · intro hrest
    subst hrest
    exact reservationLoop_cons_fail_alone cfg env hlook hpf
  · intro r2 rs hrest newest_context batch' hpop
    subst hrest
    exact reservationLoop_cons_fail_evict cfg env hlook hpf hpop

/-- C1 witness: a concrete one-candidate batch whose prefetch fails, so the
candidate itself is evicted and the phase ends. -/
theorem C1_witness :
    lookupKey [("w1", ({ cache_seq_id := 0, is_assigned_to_cache := true, max_length := none, compute_num_available_steps := fun _ => 4 } : InputContext))] "w1" = some ({ cache_seq_id := 0, is_assigned_to_cache := true, max_length := none, compute_num_available_steps := fun _ => 4 } : InputContext) ∧
    reservationLoop { max_batch_size_tg := 1, max_forward_steps_tg := 9 } { prefetch := fun _ _ _ => false, max_seq_len := 100, next_token := fun _ _ => [] } 0 { active_batch := [("w1", { cache_seq_id := 0, is_assigned_to_cache := true, max_length := none, compute_num_available_steps := fun _ => 4 })], available_cache_indices := ∅, preempted_decode := [] } ["w1"] =
      some ({ active_batch := eraseKey [("w1", ({ cache_seq_id := 0, is_assigned_to_cache := true, max_length := none, compute_num_available_steps := fun _ => 4 } : InputContext))] "w1", available_cache_indices := insert 0 (∅ : Finset Nat), preempted_decode := [] ++ [("w1", ({ cache_seq_id := 0, is_assigned_to_cache := true, max_length := none, compute_num_available_steps := fun _ => 4 } : InputContext).reset)] }, [Event.prefetch_call "w1" 4 false, Event.pipeline_release "w1"]) := by
  refine ⟨rfl, ?_⟩
  exact (C1_preemption_policy { max_batch_size_tg := 1, max_forward_steps_tg := 9 } { prefetch := fun _ _ _ => false, max_seq_len := 100, next_token := fun _ _ => [] } 0 { active_batch := [("w1", { cache_seq_id := 0, is_assigned_to_cache := true, max_length := none, compute_num_available_steps := fun _ => 4 })], available_cache_indices := ∅, preempted_decode := [] } "w1" [] { cache_seq_id := 0, is_assigned_to_cache := true, max_length := none, compute_num_available_steps := fun _ => 4 } rfl rfl).1 rfl

/-- C5: the reservation phase terminates with at most one eviction per
working-list member: the number of `pipeline.release` calls it performs is at
most the initial working-list length, hence at most `max_batch_size_tg`
whenever the working list fits the batch-size bound. -/
theorem C5_reservation_eviction_bound (cfg : DecodeSchedulerConfig) (env : Env)
    (nCalls : Nat) (st st' : SchedState) (cands : List String) (ev : List Event)
    (h : reservationLoop cfg env nCalls st cands = some (st', ev)) :
    num_evictions ev ≤ cands.length ∧
    (cands.length ≤ cfg.max_batch_size_tg →
      num_evictions ev ≤ cfg.max_batch_size_tg) := by
  have hb := reservationLoop_evictions_le cfg env cands.length cands nCalls st st' ev
    (le_refl _) h
  exact ⟨hb, fun hle => le_trans hb hle⟩

/-- C5 witness: a one-candidate reservation phase whose single prefetch
fails, performing exactly one eviction, within the batch-size bound 1. -/
theorem C5_witness :
    num_evictions [Event.prefetch_call "a" 3 false, Event.pipeline_release "a"] ≤ (["a"] : List String).length ∧
    ((["a"] : List String).length ≤ ({ max_batch_size_tg := 1, max_forward_steps_tg := 3 } : DecodeSchedulerConfig).max_batch_size_tg → num_evictions [Event.prefetch_call "a" 3 false, Event.pipeline_release "a"] ≤ ({ max_batch_size_tg := 1, max_forward_steps_tg := 3 } : DecodeSchedulerConfig).max_batch_size_tg) := by
  have hres := @reservationLoop_cons_fail_alone { max_batch_size_tg := 1, max_forward_steps_tg := 3 } { prefetch := fun _ _ _ => false, max_seq_len := 50, next_token := fun _ _ => [] } 0 { active_batch := [("a", { cache_seq_id := 0, is_assigned_to_cache := true, max_length := none, compute_num_available_steps := fun _ => 7 })], available_cache_indices := ∅, preempted_decode := [] } "a" { cache_seq_id := 0, is_assigned_to_cache := true, max_length := none, compute_num_available_steps := fun _ => 7 } rfl rfl
  exact C5_reservation_eviction_bound _ _ _ _ _ _ _ hres

/-- C10: when every prefetch call recorded during the reservation phase
succeeded, the phase is effect-free: the active batch keeps exactly the same
members in the same order, the free-slot set is unchanged, the PreemptedSet
gains no member, and no `pipeline.release` is performed. -/
theorem C10_all_prefetch_ok_frame (cfg : DecodeSchedulerConfig) (env : Env)
    (nCalls : Nat) (st st' : SchedState) (cands : List String) (ev : List Event)
    (h : reservationLoop cfg env nCalls st cands = some (st', ev))
    (hok : prefetch_all_ok ev = true) :
    st'.active_batch = st.active_batch ∧
    st'.available_cache_indices = st.available_cache_indices ∧
    st'.preempted_decode = st.preempted_decode ∧
    num_evictions ev = 0 := by
  have hfr := reservationLoop_all_ok_frame cfg env cands.length cands nCalls st st' ev
    (le_refl _) h hok
  rw [hfr.1]
  exact ⟨rfl, rfl, rfl, hfr.2⟩

/-- C10 witness: a two-candidate reservation phase in which both prefetch
calls succeed, so no eviction happens. -/
theorem C10_witness :
    num_evictions [Event.prefetch_call "x" 5 true, Event.prefetch_call "y" 5 true] = 0 := by
  have s2 : reservationLoop { max_batch_size_tg := 2, max_forward_steps_tg := 5 } { prefetch := fun _ _ _ => true, max_seq_len := 60, next_token := fun _ _ => [] } 2 { active_batch := [("x", { cache_seq_id := 0, is_assigned_to_cache := true, max_length := none, compute_num_available_steps := fun _ => 8 }), ("y", { cache_seq_id := 1, is_assigned_to_cache := true, max_length := none, compute_num_available_steps := fun _ => 8 })], available_cache_indices := ∅, preempted_decode := [] } [] = some ({ active_batch := [("x", { cache_seq_id := 0, is_assigned_to_cache := true, max_length := none, compute_num_available_steps := fun _ => 8 }), ("y", { cache_seq_id := 1, is_assigned_to_cache := true, max_length := none, compute_num_available_steps := fun _ => 8 })], available_cache_indices := ∅, preempted_decode := [] }, []) :=
    reservationLoop_nil _ _ _ _
  have s1 : reservationLoop { max_batch_size_tg := 2, max_forward_steps_tg := 5 } { prefetch := fun _ _ _ => true, max_seq_len := 60, next_token := fun _ _ => [] } 1 { active_batch := [("x", { cache_seq_id := 0, is_assigned_to_cache := true, max_length := none, compute_num_available_steps := fun _ => 8 }), ("y", { cache_seq_id := 1, is_assigned_to_cache := true, max_length := none, compute_num_available_steps := fun _ => 8 })], available_cache_indices := ∅, preempted_decode := [] } ["y"] = some ({ active_batch := [("x", { cache_seq_id := 0, is_assigned_to_cache := true, max_length := none, compute_num_available_steps := fun _ => 8 }), ("y", { cache_seq_id := 1, is_assigned_to_cache := true, max_length := none, compute_num_available_steps := fun _ => 8 })], available_cache_indices := ∅, preempted_decode := [] }, [Event.prefetch_call "y" 5 true]) := by
    rw [@reservationLoop_cons_success { max_batch_size_tg := 2, max_forward_steps_tg := 5 } { prefetch := fun _ _ _ => true, max_seq_len := 60, next_token := fun _ _ => [] } 1 { active_batch := [("x", { cache_seq_id := 0, is_assigned_to_cache := true, max_length := none, compute_num_available_steps := fun _ => 8 }), ("y", { cache_seq_id := 1, is_assigned_to_cache := true, max_length := none, compute_num_available_steps := fun _ => 8 })], available_cache_indices := ∅, preempted_decode := [] } "y" [] { cache_seq_id := 1, is_assigned_to_cache := true, max_length := none, compute_num_available_steps := fun _ => 8 } rfl rfl, s2]
    rfl
  have s0 : reservationLoop { max_batch_size_tg := 2, max_forward_steps_tg := 5 } { prefetch := fun _ _ _ => true, max_seq_len := 60, next_token := fun _ _ => [] } 0 { active_batch := [("x", { cache_seq_id := 0, is_assigned_to_cache := true, max_length := none, compute_num_available_steps := fun _ => 8 }), ("y", { cache_seq_id := 1, is_assigned_to_cache := true, max_length := none, compute_num_available_steps := fun _ => 8 })], available_cache_indices := ∅, preempted_decode := [] } ["x", "y"] = some ({ active_batch := [("x", { cache_seq_id := 0, is_assigned_to_cache := true, max_length := none, compute_num_available_steps := fun _ => 8 }), ("y", { cache_seq_id := 1, is_assigned_to_cache := true, max_length := none, compute_num_available_steps := fun _ => 8 })], available_cache_indices := ∅, preempted_decode := [] }, [Event.prefetch_call "x" 5 true, Event.prefetch_call "y" 5 true]) := by
    rw [@reservationLoop_cons_success { max_batch_size_tg := 2, max_forward_steps_tg := 5 } { prefetch := fun _ _ _ => true, max_seq_len := 60, next_token := fun _ _ => [] } 0 { active_batch := [("x", { cache_seq_id := 0, is_assigned_to_cache := true, max_length := none, compute_num_available_steps := fun _ => 8 }), ("y", { cache_seq_id := 1, is_assigned_to_cache := true, max_length := none, compute_num_available_steps := fun _ => 8 })], available_cache_indices := ∅, preempted_decode := [] } "x" ["y"] { cache_seq_id := 0, is_assigned_to_cache := true, max_length := none, compute_num_available_steps := fun _ => 8 } rfl rfl, s1]
    rfl
  exact (C10_all_prefetch_ok_frame _ _ _ _ _ _ _ s0 rfl).2.2.2

/-! ### Termination-reclamation lemmas -/

theorem handle_terminated_nil (st : SchedState) :
    handle_terminated_responses st [] = some (st, []) := rfl

theorem handle_terminated_cons_not_done {response : TextGenerationResponse}
    (hd : response.is_done = false) (st : SchedState) (request_id : String)
    (rest : List (String × TextGenerationResponse)) :
    handle_terminated_responses st ((request_id, response) :: rest) =
      handle_terminated_responses st rest := by
  rw [handle_terminated_responses]
  simp [hd]

theorem handle_terminated_cons_missing {st : SchedState} {request_id : String}
    {response : TextGenerationResponse} (hd : response.is_done = true)
    (hlook : lookupKey st.active_batch request_id = none)
    (rest : List (String × TextGenerationResponse)) :
    handle_terminated_responses st ((request_id, response) :: rest) = none := by
  rw [handle_terminated_responses]
  simp [hd, hlook]

theorem handle_terminated_cons_done {st : SchedState} {request_id : String}
    {response : TextGenerationResponse} {context : InputContext}
    (hd : response.is_done = true)
    (hlook : lookupKey st.active_batch request_id = some context)
    (rest : List (String × TextGenerationResponse)) :
    handle_terminated_responses st ((request_id, response) :: rest) =
      (handle_terminated_responses
        { st with
            available_cache_indices :=
              insert context.cache_seq_id st.available_cache_indices
            active_batch := eraseKey st.active_batch request_id } rest).map
        (fun p => (p.1, Event.pipeline_release request_id :: p.2)) := by
  rw [handle_terminated_responses]
  simp only [hd, if_true, hlook]
  cases hrec : handle_terminated_responses
      { st with
          available_cache_indices :=
            insert context.cache_seq_id st.available_cache_indices
          active_batch := eraseKey st.active_batch request_id } rest with
  | none => simp
  | some p => obtain ⟨st2, ev2⟩ := p; simp

theorem mem_keys_of_mem_keys_eraseKey {β : Type} {l : List (String × β)}
    {k rid : String} (h : k ∈ batchKeys (eraseKey l rid)) : k ∈ batchKeys l := by
  rw [batchKeys, List.mem_map] at h
  obtain ⟨p, hp, hpk⟩ := h
  rw [batchKeys, List.mem_map]
  exact ⟨p, mem_of_mem_eraseKey hp, hpk⟩

theorem handle_terminated_keys_subset :
    ∀ (resps : List (String × TextGenerationResponse)) (st st' : SchedState)
      (ev : List Event),
    handle_terminated_responses st resps = some (st', ev) →
    ∀ k, k ∈ batchKeys st'.active_batch → k ∈ batchKeys st.active_batch := by
  intro resps
  induction resps with
  | nil =>
    intro st st' ev h k hk
    rw [handle_terminated_nil] at h
    simp at h
    rw [h.1]
    exact hk
  | cons p rest ih =>
    intro st st' ev h k hk
    obtain ⟨request_id, response⟩ := p
    cases hd : response.is_done with
    | false =>
      rw [handle_terminated_cons_not_done hd] at h
      exact ih st st' ev h k hk
    | true =>
      cases hlook : lookupKey st.active_batch request_id with
      | none =>
        rw [handle_terminated_cons_missing hd hlook] at h
        exact absurd h (by simp)
      | some context =>
        rw [handle_terminated_cons_done hd hlook] at h
        rw [Option.map_eq_some'] at h
        obtain ⟨⟨st2, ev2⟩, hrec, hfa⟩ := h
        simp at hfa
        have hmem2 := ih _ st2 ev2 hrec k (by rw [hfa.1]; exact hk)
        simp only at hmem2
        exact mem_keys_of_mem_keys_eraseKey hmem2

theorem handle_terminated_avail_mono :
    ∀ (resps : List (String × TextGenerationResponse)) (st st' : SchedState)
      (ev : List Event),
    handle_terminated_responses st resps = some (st', ev) →
    ∀ s, s ∈ st.available_cache_indices → s ∈ st'.available_cache_indices := by
  intro resps
  induction resps with
  | nil =>
    intro st st' ev h s hs
    rw [handle_terminated_nil] at h
    simp at h
    rw [← h.1]
    exact hs
  | cons p rest ih =>
    intro st st' ev h s hs
    obtain ⟨request_id, response⟩ := p
    cases hd : response.is_done with
    | false =>
      rw [handle_terminated_cons_not_done hd] at h
      exact ih st st' ev h s hs
    | true =>
      cases hlook : lookupKey st.active_batch request_id with
      | none =>
        rw [handle_terminated_cons_missing hd hlook] at h
        exact absurd h (by simp)
      | some context =>
        rw [handle_terminated_cons_done hd hlook] at h
        rw [Option.map_eq_some'] at h
        obtain ⟨⟨st2, ev2⟩, hrec, hfa⟩ := h
        simp at hfa
        rw [← hfa.1]
        exact ih _ st2 ev2 hrec s (by simp [hs])

theorem handle_terminated_release_mem :
    ∀ (resps : List (String × TextGenerationResponse)) (st st' : SchedState)
      (ev : List Event),
    handle_terminated_responses st resps = some (st', ev) →
    ∀ r, Event.pipeline_release r ∈ ev → r ∈ batchKeys resps := by
  intro resps
  induction resps with
  | nil =>
    intro st st' ev h r hr
    rw [handle_terminated_nil] at h
    simp at h
    rw [h.2] at hr
    simp at hr
  | cons p rest ih =>
    intro st st' ev h r hr
    obtain ⟨request_id, response⟩ := p
    cases hd : response.is_done with
    | false =>
      rw [handle_terminated_cons_not_done hd] at h
      have hmem3 := ih st st' ev h r hr
      rw [show batchKeys ((request_id, response) :: rest) =
        request_id :: batchKeys rest from rfl]
      exact List.mem_cons_of_mem _ hmem3
    | true =>
      cases hlook : lookupKey st.active_batch request_id with
      | none =>
        rw [handle_terminated_cons_missing hd hlook] at h
        exact absurd h (by simp)
      | some context =>
        rw [handle_terminated_cons_done hd hlook] at h
        rw [Option.map_eq_some'] at h
        obtain ⟨⟨st2, ev2⟩, hrec, hfa⟩ := h
        simp at hfa
        rw [← hfa.2] at hr
        rcases List.mem_cons.mp hr with hr | hr
        · injection hr with he
          rw [show batchKeys ((request_id, response) :: rest) =
            request_id :: batchKeys rest from rfl, he]
          exact List.mem_cons_self _ _
        · have hmem4 := ih _ st2 ev2 hrec r hr
          rw [show batchKeys ((request_id, response) :: rest) =
            request_id :: batchKeys rest from rfl]
          exact List.mem_cons_of_mem _ hmem4

/-- C6: for every response marked terminated (with distinct batch and
response keys), `_handle_terminated_responses` reclaims exactly once: the
request is gone from the ActiveBatchRegistry, its cache slot id is in the
free set, and exactly one `pipeline.release` is recorded for it; the
resulting state is the one the next admission phase starts from. -/
theorem C6_termination_reclamation
    (st : SchedState) (resps : List (String × TextGenerationResponse))
    (st' : SchedState) (ev : List Event) (request_id : String)
    (response : TextGenerationResponse)
    (hbn : (batchKeys st.active_batch).Nodup)
    (hrn : (batchKeys resps).Nodup)
    (h : handle_terminated_responses st resps = some (st', ev))
    (hmem : (request_id, response) ∈ resps)
    (hdone : response.is_done = true) :
    request_id ∉ batchKeys st'.active_batch ∧
    (∀ context, lookupKey st.active_batch request_id = some context →
      context.cache_seq_id ∈ st'.available_cache_indices) ∧
    ev.count (Event.pipeline_release request_id) = 1 := by
  induction resps generalizing st ev with
  | nil => simp at hmem
  | cons p rest ih =>
    obtain ⟨k, r⟩ := p
    have hrn' : k ∉ batchKeys rest ∧ (batchKeys rest).Nodup := by
      rw [show batchKeys ((k, r) :: rest) = k :: batchKeys rest from rfl,
        List.nodup_cons] at hrn
      exact hrn
    rcases List.mem_cons.mp hmem with hhead | htail
    · injection hhead with hk hr
      subst hk hr
      cases hlook : lookupKey st.active_batch request_id with
      | none =>
        rw [handle_terminated_cons_missing hdone hlook] at h
        exact absurd h (by simp)
      | some context =>
        rw [handle_terminated_cons_done hdone hlook] at h
        rw [Option.map_eq_some'] at h
        obtain ⟨⟨st2, ev2⟩, hrec, hfa⟩ := h
        simp at hfa
        obtain ⟨hst, hev⟩ := hfa
        subst hst
        refine ⟨?_, ?_, ?_⟩
        · intro hk'
          have := handle_terminated_keys_subset rest _ _ _ hrec request_id hk'
          simp only at this
          exact not_mem_keys_eraseKey hbn this
        · intro context' hc
          have hceq : context = context' := Option.some.inj hc
          subst hceq
          exact handle_terminated_avail_mono rest _ _ _ hrec _
            (Finset.mem_insert_self _ _)
        · rw [← hev]
          rw [List.count_cons]
          have hnotin : Event.pipeline_release request_id ∉ ev2 := by
            intro hin
            have := handle_terminated_release_mem rest _ _ _ hrec request_id hin
            exact hrn'.1 this
          rw [List.count_eq_zero.mpr hnotin]
          simp
    · have hne : request_id ≠ k := by
        intro he
        apply hrn'.1
        rw [← he]
        exact List.mem_map_of_mem _ htail
      cases hd : r.is_done with
      | false =>
        rw [handle_terminated_cons_not_done hd] at h
        exact ih st ev hbn hrn'.2 h htail
      | true =>
        cases hlook : lookupKey st.active_batch k with
        | none =>
          rw [handle_terminated_cons_missing hd hlook] at h
          exact absurd h (by simp)
        | some context =>
          rw [handle_terminated_cons_done hd hlook] at h
          rw [Option.map_eq_some'] at h
          obtain ⟨⟨st2, ev2⟩, hrec, hfa⟩ := h
          simp at hfa
          obtain ⟨hst, hev⟩ := hfa
          subst hst
          have hbn1 : (batchKeys (eraseKey st.active_batch k)).Nodup := by
            have hperm := batchKeys_eraseKey_perm hlook
            have := hperm.nodup_iff.mp hbn
            exact (List.nodup_cons.mp this).2
          have hih := ih { st with
              available_cache_indices :=
                insert context.cache_seq_id st.available_cache_indices
              active_batch := eraseKey st.active_batch k } ev2 hbn1 hrn'.2 hrec htail
          refine ⟨hih.1, ?_, ?_⟩
          · intro context' hc
            apply hih.2.1 context'
            simp only
            rw [lookupKey_eraseKey_other hne]
            exact hc
          · rw [← hev, List.count_cons]
            have : (Event.pipeline_release k ==
                Event.pipeline_release request_id) = false := by
              simp [Ne.symm hne]
            rw [this]
            simp [hih.2.2]

/-- C6 witness: a one-member batch whose only response is terminated; the
request leaves the registry, slot 0 returns to the free set, and exactly one
release is logged. -/
theorem C6_witness :
    "t1" ∉ batchKeys ({ active_batch := ([] : List (String × InputContext)), available_cache_indices := insert 0 (∅ : Finset Nat), preempted_decode := ([] : List (String × InputContext)) } : SchedState).active_batch ∧
    (∀ context, lookupKey ({ active_batch := [("t1", { cache_seq_id := 0, is_assigned_to_cache := true, max_length := none, compute_num_available_steps := fun _ => 6 })], available_cache_indices := ∅, preempted_decode := [] } : SchedState).active_batch "t1" = some context → context.cache_seq_id ∈ ({ active_batch := ([] : List (String × InputContext)), available_cache_indices := insert 0 (∅ : Finset Nat), preempted_decode := ([] : List (String × InputContext)) } : SchedState).available_cache_indices) ∧
    List.count (Event.pipeline_release "t1") [Event.pipeline_release "t1"] = 1 :=
  C6_termination_reclamation
    { active_batch := [("t1", { cache_seq_id := 0, is_assigned_to_cache := true, max_length := none, compute_num_available_steps := fun _ => 6 })], available_cache_indices := ∅, preempted_decode := [] }
    [("t1", { tokens := [5], is_done := true })]
    { active_batch := [], available_cache_indices := insert 0 (∅ : Finset Nat), preempted_decode := [] }
    [Event.pipeline_release "t1"] "t1" { tokens := [5], is_done := true }
    (by decide) (by decide) rfl (List.mem_cons_self _ _) rfl

/-! ### Admission-loop lemmas -/

theorem admitLoop_no_slot {st : SchedState}
    (h : ¬ st.available_cache_indices.Nonempty)
    (decodeQ : List (String × InputContext)) :
    admitLoop st decodeQ = some (st, decodeQ, []) := by
  rw [admitLoop]
  simp [h]

theorem admitLoop_empty {st : SchedState} {decodeQ : List (String × InputContext)}
    (hne : st.available_cache_indices.Nonempty)
    (hpull : pull_from_decode_socket st decodeQ = none) :
    admitLoop st decodeQ = some (st, decodeQ, []) := by
  rw [admitLoop]
  rw [if_pos hne]
  split
  · rfl
  · rename_i heq
    rw [hpull] at heq
    exact absurd heq (by simp)

theorem admitLoop_step_assigned {st : SchedState} {decodeQ : List (String × InputContext)}
    {request_id : String} {context : InputContext} {st' : SchedState}
    {q' : List (String × InputContext)}
    (hne : st.available_cache_indices.Nonempty)
    (hpull : pull_from_decode_socket st decodeQ = some ((request_id, context), st', q'))
    (hassigned : context.is_assigned_to_cache = true) :
    admitLoop st decodeQ =
      admitLoop { st' with
        active_batch := odSet st'.active_batch request_id context } q' := by
  rw [admitLoop]
  rw [if_pos hne]
  split
  · rename_i heq
    rw [hpull] at heq
    exact absurd heq (by simp)
  · rename_i rid ctx st'' q'' heq
    rw [hpull] at heq
    simp at heq
    obtain ⟨⟨h1, h2⟩, h3, h4⟩ := heq
    subst h1 h2 h3 h4
    rw [if_pos hassigned]

theorem admitLoop_step_claim {st : SchedState} {decodeQ : List (String × InputContext)}
    {request_id : String} {context : InputContext} {st' : SchedState}
    {q' : List (String × InputContext)} {slot : Nat} {avail' : Finset Nat}
    (hne : st.available_cache_indices.Nonempty)
    (hpull : pull_from_decode_socket st decodeQ = some ((request_id, context), st', q'))
    (hassigned : context.is_assigned_to_cache = false)
    (hpop : popMinSlot st'.available_cache_indices = some (slot, avail')) :
    admitLoop st decodeQ =
      (admitLoop { st' with
          available_cache_indices := avail'
          active_batch := odSet st'.active_batch request_id
            (context.assign_to_cache slot) } q').map
        (fun t => (t.1, t.2.1, Event.external_claim slot :: t.2.2)) := by
  rw [admitLoop]
  rw [if_pos hne]
  split
  · rename_i heq
    rw [hpull] at heq
    exact absurd heq (by simp)
  · rename_i rid ctx st'' q'' heq
    rw [hpull] at heq
    simp at heq
    obtain ⟨⟨h1, h2⟩, h3, h4⟩ := heq
    subst h1 h2 h3 h4
    rw [if_neg (by simp [hassigned]), hpop]
    cases hrec : admitLoop { st' with
        available_cache_indices := avail'
        active_batch := odSet st'.active_batch request_id
          (context.assign_to_cache slot) } q' with
    | none => simp [hrec]
    | some t =>
      obtain ⟨st2, q2, ev2⟩ := t
      simp [hrec]

theorem admitLoop_step_claim_fail {st : SchedState}
    {decodeQ : List (String × InputContext)}
    {request_id : String} {context : InputContext} {st' : SchedState}
    {q' : List (String × InputContext)}
    (hne : st.available_cache_indices.Nonempty)
    (hpull : pull_from_decode_socket st decodeQ = some ((request_id, context), st', q'))
    (hassigned : context.is_assigned_to_cache = false)
    (hpop : popMinSlot st'.available_cache_indices = none) :
    admitLoop st decodeQ = none := by
  rw [admitLoop]
  rw [if_pos hne]
  split
  · rename_i heq
    rw [hpull] at heq
    exact absurd heq (by simp)
  · rename_i rid ctx st'' q'' heq
    rw [hpull] at heq
    simp at heq
    obtain ⟨⟨h1, h2⟩, h3, h4⟩ := heq
    subst h1 h2 h3 h4
    rw [if_neg (by simp [hassigned]), hpop]

theorem batchKeys_odSet_fresh {β : Type} {l : List (String × β)} {k : String}
    (h : k ∉ batchKeys l) (v : β) :
    batchKeys (odSet l k v) = batchKeys l ++ [k] := by
  rw [odSet_of_not_mem h, batchKeys_append]
  rfl

theorem batchKeys_cons {β : Type} (x : String × β) (l : List (String × β)) :
    batchKeys (x :: l) = x.1 :: batchKeys l := rfl

theorem batchKeys_nil {β : Type} : batchKeys ([] : List (String × β)) = [] := rfl

theorem admitLoop_order (n : Nat) :
    ∀ (st : SchedState) (q : List (String × InputContext))
      (st1 : SchedState) (q1 : List (String × InputContext)) (ev : List Event),
    st.preempted_decode.length + q.length ≤ n →
    (batchKeys st.active_batch ++ batchKeys st.preempted_decode ++
      batchKeys q).Nodup →
    admitLoop st q = some (st1, q1, ev) →
    ∃ k m, batchKeys st1.active_batch =
        batchKeys st.active_batch ++ batchKeys (st.preempted_decode.take k) ++
          batchKeys (q.take m) ∧
      (0 < m → k = st.preempted_decode.length) := by
  induction n with
  | zero =>
    intro st q st1 q1 ev hle hnd h
    have hp : st.preempted_decode = [] := List.length_eq_zero.mp (by omega)
    have hq : q = [] := List.length_eq_zero.mp (by omega)
    subst hq
    by_cases hne : st.available_cache_indices.Nonempty
    · rw [admitLoop_empty hne (by simp [pull_from_decode_socket, hp])] at h
      simp at h
      exact ⟨0, 0, by simp [← h.1, batchKeys_nil], by simp⟩
    · rw [admitLoop_no_slot hne] at h
      simp at h
      exact ⟨0, 0, by simp [← h.1, batchKeys_nil], by simp⟩
  | succ n ih =>
    intro st q st1 q1 ev hle hnd h
    by_cases hne : st.available_cache_indices.Nonempty
    case neg =>
      rw [admitLoop_no_slot hne] at h
      simp at h
      exact ⟨0, 0, by simp [← h.1, batchKeys_nil], by simp⟩
    case pos =>
    cases hp : st.preempted_decode with
    | cons p ps =>
      obtain ⟨rid, ctx⟩ := p
      have hpull : pull_from_decode_socket st q =
          some ((rid, ctx), { st with preempted_decode := ps }, q) := by
        simp [pull_from_decode_socket, hp]
      have hnd1 : (batchKeys st.active_batch ++
          (rid :: (batchKeys ps ++ batchKeys q))).Nodup := by
        rw [hp] at hnd
        simpa [batchKeys_cons, List.append_assoc] using hnd
      have hfresh : rid ∉ batchKeys st.active_batch := fun hin =>
        (List.disjoint_of_nodup_append hnd1) hin (by simp)
      have hmeas : ps.length + q.length ≤ n := by
        rw [hp] at hle
        simp only [List.length_cons] at hle
        omega
      have hnd2 : ∀ (c2 : InputContext),
          (batchKeys (odSet st.active_batch rid c2) ++ batchKeys ps ++
            batchKeys q).Nodup := by
        intro c2
        rw [batchKeys_odSet_fresh hfresh]
        simpa [List.append_assoc] using hnd1
      cases hassigned : ctx.is_assigned_to_cache with
      | true =>
        rw [admitLoop_step_assigned hne hpull hassigned] at h
        obtain ⟨k, m, hk, hm⟩ := ih
          { st with preempted_decode := ps
                    active_batch := odSet st.active_batch rid ctx } q st1 q1 ev
          (by simpa using hmeas) (by simpa using hnd2 ctx) h
        refine ⟨k + 1, m, ?_, ?_⟩
        · rw [hk]
          simp [List.take_succ_cons, batchKeys_odSet_fresh hfresh, batchKeys_cons,
            List.append_assoc]
        · intro hm0
          simp [hm hm0]
      | false =>
        cases hpop : popMinSlot st.available_cache_indices with
        | none =>
          rw [admitLoop_step_claim_fail hne hpull hassigned hpop] at h
          exact absurd h (by simp)
        | some sl =>
          obtain ⟨slot, avail'⟩ := sl
          rw [admitLoop_step_claim hne hpull hassigned hpop] at h
          rw [Option.map_eq_some'] at h
          obtain ⟨⟨st2', q2', ev2'⟩, hrec, hfa⟩ := h
          simp at hfa
          obtain ⟨ha, hb, hc⟩ := hfa
          subst ha hb
          obtain ⟨k, m, hk, hm⟩ := ih
            { st with preempted_decode := ps
                      available_cache_indices := avail'
                      active_batch := odSet st.active_batch rid
                        (ctx.assign_to_cache slot) } q st2' q2' ev2'
            (by simpa using hmeas) (by simpa using hnd2 _) hrec
          refine ⟨k + 1, m, ?_, ?_⟩
          · rw [hk]
            simp [List.take_succ_cons, batchKeys_odSet_fresh hfresh, batchKeys_cons,
              List.append_assoc]
          · intro hm0
            simp [hm hm0]
    | nil =>
      cases hq : q with
      | nil =>
        subst hq
        rw [admitLoop_empty hne (by simp [pull_from_decode_socket, hp])] at h
        simp at h
        exact ⟨0, 0, by simp [← h.1, batchKeys_nil], by simp⟩
      | cons d ds =>
        obtain ⟨rid, ctx⟩ := d
        subst hq
        have hpull : pull_from_decode_socket st ((rid, ctx) :: ds) =
            some ((rid, ctx), st, ds) := by
          simp [pull_from_decode_socket, hp]
        have hnd1 : (batchKeys st.active_batch ++ (rid :: batchKeys ds)).Nodup := by
          rw [hp] at hnd
          simpa [batchKeys_cons, batchKeys_nil, List.append_assoc] using hnd
        have hfresh : rid ∉ batchKeys st.active_batch := fun hin =>
          (List.disjoint_of_nodup_append hnd1) hin (by simp)
        have hmeas : st.preempted_decode.length + ds.length ≤ n := by
          simp only [List.length_cons] at hle
          omega
        have hnd2 : ∀ (c2 : InputContext),
            (batchKeys (odSet st.active_batch rid c2) ++
              batchKeys st.preempted_decode ++ batchKeys ds).Nodup := by
          intro c2
          rw [batchKeys_odSet_fresh hfresh, hp]
          simpa [batchKeys_nil, List.append_assoc] using hnd1
        cases hassigned : ctx.is_assigned_to_cache with
        | true =>
          rw [admitLoop_step_assigned hne hpull hassigned] at h
          obtain ⟨k, m, hk, hm⟩ := ih
            { st with active_batch := odSet st.active_batch rid ctx } ds st1 q1 ev
            (by simpa using hmeas) (by simpa using hnd2 ctx) h
          refine ⟨0, m + 1, ?_, ?_⟩
          · rw [hk, hp]
            simp [List.take_succ_cons, batchKeys_odSet_fresh hfresh, batchKeys_cons,
              batchKeys_nil, List.append_assoc]
          · intro hm0
            simp
        | false =>
          cases hpop : popMinSlot st.available_cache_indices with
          | none =>
            rw [admitLoop_step_claim_fail hne hpull hassigned hpop] at h
            exact absurd h (by simp)
          | some sl =>
            obtain ⟨slot, avail'⟩ := sl
            rw [admitLoop_step_claim hne hpull hassigned hpop] at h
            rw [Option.map_eq_some'] at h
            obtain ⟨⟨st2', q2', ev2'⟩, hrec, hfa⟩ := h
            simp at hfa
            obtain ⟨ha, hb, hc⟩ := hfa
            subst ha hb
            obtain ⟨k, m, hk, hm⟩ := ih
              { st with available_cache_indices := avail'
                        active_batch := odSet st.active_batch rid
                          (ctx.assign_to_cache slot) } ds st2' q2' ev2'
              (by simpa using hmeas) (by simpa using hnd2 _) hrec
            refine ⟨0, m + 1, ?_, ?_⟩
            · rw [hk, hp]
              simp [List.take_succ_cons, batchKeys_odSet_fresh hfresh, batchKeys_cons,
                batchKeys_nil, List.append_assoc]
            · intro hm0
              simp

/-- C7: refilling gives the PreemptedSet strict priority over the inbound
decode queue.  A pull returns the preempted front whenever the preempted queue
is non-empty, and returns a decode-queue item only when the preempted queue is
empty; across a whole admission phase, the keys appended to the active batch
are a prefix of the preempted queue followed by a prefix of the decode queue,
and any decode-queue admission forces the preempted queue to have been fully
drained first. -/
theorem C7_preempted_priority :
    (∀ (st : SchedState) (q : List (String × InputContext))
       (p : String × InputContext) (ps : List (String × InputContext)),
      st.preempted_decode = p :: ps →
      pull_from_decode_socket st q =
        some (p, { st with preempted_decode := ps }, q)) ∧
    (∀ (st : SchedState) (q : List (String × InputContext))
       (d : String × InputContext) (ds : List (String × InputContext)),
      st.preempted_decode = [] → q = d :: ds →
      pull_from_decode_socket st q = some (d, st, ds)) ∧
    (∀ (st : SchedState) (q : List (String × InputContext))
       (st1 : SchedState) (q1 : List (String × InputContext)) (ev : List Event),
      (batchKeys st.active_batch ++ batchKeys st.preempted_decode ++
        batchKeys q).Nodup →
      admitLoop st q = some (st1, q1, ev) →
      ∃ k m, batchKeys st1.active_batch =
          batchKeys st.active_batch ++ batchKeys (st.preempted_decode.take k) ++
            batchKeys (q.take m) ∧
        (0 < m → k = st.preempted_decode.length)) := by
  refine ⟨?_, ?_, ?_⟩
  · intro st q p ps hp
    simp [pull_from_decode_socket, hp]
  · intro st q d ds hp hq
    subst hq
    simp [pull_from_decode_socket, hp]
  · intro st q st1 q1 ev hnd h
    exact admitLoop_order (st.preempted_decode.length + q.length) st q st1 q1 ev
      (le_refl _) hnd h

/-- C7 witness: a pull with a preempted request waiting returns it without
touching the decode queue; a pull with an empty preempted queue serves the
decode queue; and a one-slot admission phase admits the preempted request. -/
theorem C7_witness :
    pull_from_decode_socket { active_batch := [], available_cache_indices := insert 0 (∅ : Finset Nat), preempted_decode := [("p1", { cache_seq_id := 0, is_assigned_to_cache := false, max_length := none, compute_num_available_steps := fun _ => 2 })] } [("n1", { cache_seq_id := 5, is_assigned_to_cache := false, max_length := none, compute_num_available_steps := fun _ => 2 })] =
      some (("p1", { cache_seq_id := 0, is_assigned_to_cache := false, max_length := none, compute_num_available_steps := fun _ => 2 }), { active_batch := [], available_cache_indices := insert 0 (∅ : Finset Nat), preempted_decode := ([] : List (String × InputContext)) }, [("n1", { cache_seq_id := 5, is_assigned_to_cache := false, max_length := none, compute_num_available_steps := fun _ => 2 })]) ∧
    pull_from_decode_socket { active_batch := [], available_cache_indices := insert 0 (∅ : Finset Nat), preempted_decode := ([] : List (String × InputContext)) } [("n1", { cache_seq_id := 5, is_assigned_to_cache := false, max_length := none, compute_num_available_steps := fun _ => 2 })] =
      some (("n1", { cache_seq_id := 5, is_assigned_to_cache := false, max_length := none, compute_num_available_steps := fun _ => 2 }), { active_batch := [], available_cache_indices := insert 0 (∅ : Finset Nat), preempted_decode := ([] : List (String × InputContext)) }, []) ∧
    (∃ k m,
      batchKeys ({ active_batch := odSet ([] : List (String × InputContext)) "p1" (({ cache_seq_id := 0, is_assigned_to_cache := false, max_length := none, compute_num_available_steps := fun _ => 2 } : InputContext).assign_to_cache 0), available_cache_indices := (∅ : Finset Nat), preempted_decode := ([] : List (String × InputContext)) } : SchedState).active_batch =
        batchKeys ({ active_batch := [], available_cache_indices := insert 0 (∅ : Finset Nat), preempted_decode := [("p1", { cache_seq_id := 0, is_assigned_to_cache := false, max_length := none, compute_num_available_steps := fun _ => 2 })] } : SchedState).active_batch ++
          batchKeys (({ active_batch := [], available_cache_indices := insert 0 (∅ : Finset Nat), preempted_decode := [("p1", { cache_seq_id := 0, is_assigned_to_cache := false, max_length := none, compute_num_available_steps := fun _ => 2 })] } : SchedState).preempted_decode.take k) ++
          batchKeys (([] : List (String × InputContext)).take m) ∧
      (0 < m → k = ({ active_batch := [], available_cache_indices := insert 0 (∅ : Finset Nat), preempted_decode := [("p1", { cache_seq_id := 0, is_assigned_to_cache := false, max_length := none, compute_num_available_steps := fun _ => 2 })] } : SchedState).preempted_decode.length)) := by
  refine ⟨C7_preempted_priority.1 { active_batch := [], available_cache_indices := insert 0 (∅ : Finset Nat), preempted_decode := [("p1", { cache_seq_id := 0, is_assigned_to_cache := false, max_length := none, compute_num_available_steps := fun _ => 2 })] } [("n1", { cache_seq_id := 5, is_assigned_to_cache := false, max_length := none, compute_num_available_steps := fun _ => 2 })] ("p1", { cache_seq_id := 0, is_assigned_to_cache := false, max_length := none, compute_num_available_steps := fun _ => 2 }) [] rfl,
    C7_preempted_priority.2.1 { active_batch := [], available_cache_indices := insert 0 (∅ : Finset Nat), preempted_decode := ([] : List (String × InputContext)) } [("n1", { cache_seq_id := 5, is_assigned_to_cache := false, max_length := none, compute_num_available_steps := fun _ => 2 })] ("n1", { cache_seq_id := 5, is_assigned_to_cache := false, max_length := none, compute_num_available_steps := fun _ => 2 }) [] rfl rfl,
    ?_⟩
  have h1 := @admitLoop_step_claim { active_batch := [], available_cache_indices := insert 0 (∅ : Finset Nat), preempted_decode := [("p1", { cache_seq_id := 0, is_assigned_to_cache := false, max_length := none, compute_num_available_steps := fun _ => 2 })] } [] "p1" { cache_seq_id := 0, is_assigned_to_cache := false, max_length := none, compute_num_available_steps := fun _ => 2 } { active_batch := [], available_cache_indices := insert 0 (∅ : Finset Nat), preempted_decode := ([] : List (String × InputContext)) } [] 0 ∅
    (by decide) rfl rfl (by decide)
  have h2 := @admitLoop_no_slot { active_batch := odSet ([] : List (String × InputContext)) "p1" (({ cache_seq_id := 0, is_assigned_to_cache := false, max_length := none, compute_num_available_steps := fun _ => 2 } : InputContext).assign_to_cache 0), available_cache_indices := (∅ : Finset Nat), preempted_decode := ([] : List (String × InputContext)) } (by decide) []
  have h : admitLoop { active_batch := [], available_cache_indices := insert 0 (∅ : Finset Nat), preempted_decode := [("p1", { cache_seq_id := 0, is_assigned_to_cache := false, max_length := none, compute_num_available_steps := fun _ => 2 })] } [] =
      some ({ active_batch := odSet ([] : List (String × InputContext)) "p1" (({ cache_seq_id := 0, is_assigned_to_cache := false, max_length := none, compute_num_available_steps := fun _ => 2 } : InputContext).assign_to_cache 0), available_cache_indices := (∅ : Finset Nat), preempted_decode := ([] : List (String × InputContext)) }, [], [Event.external_claim 0]) := by
    rw [h1, h2]
    rfl
  exact C7_preempted_priority.2.2 { active_batch := [], available_cache_indices := insert 0 (∅ : Finset Nat), preempted_decode := [("p1", { cache_seq_id := 0, is_assigned_to_cache := false, max_length := none, compute_num_available_steps := fun _ => 2 })] } [] _ [] [Event.external_claim 0]
    (by decide) h

theorem foldl_max_frames (resps : List (String × TextGenerationResponse)) :
    ∀ a b : Nat,
    resps.foldl (fun acc p => max acc (response_frame_count p.2)) (max a b) =
      max a (resps.foldl (fun acc p => max acc (response_frame_count p.2)) b) := by
  induction resps with
  | nil => intro a b; simp
  | cons p rest ih =>
    intro a b
    simp only [List.foldl_cons]
    rw [max_assoc]
    exact ih a (max b (response_frame_count p.2))

/-- C4: corrected form of the stream-framing contract.  With distinct
response keys: an empty response set emits nothing; a non-empty one emits
exactly one message whose frame count is the maximum of 1 and the largest
per-request frame need (tokens + 1 when terminated); each request's i-th
token sits in frame i; a terminated request has the stop sentinel in the
frame right after its last token; and a request is absent from every frame at
or beyond its own frame need (in particular a non-terminated request is
absent from frames at or beyond its token count). -/
theorem C4_stream_framing (responses : List (String × TextGenerationResponse))
    (hnd : (batchKeys responses).Nodup) :
    (responses = [] → stream_responses_to_frontend responses = none) ∧
    (responses ≠ [] → ∃ frames,
      stream_responses_to_frontend responses = some frames ∧
      frames.length = max 1 (max_response_frames responses) ∧
      ∀ request_id response, (request_id, response) ∈ responses →
        (∀ i, i < response.tokens.length →
          frameGet frames i request_id =
            some (StreamItem.token (response.tokens.getD i 0))) ∧
        (response.is_done = true →
          frameGet frames response.tokens.length request_id =
            some StreamItem.stop) ∧
        (∀ i, response_frame_count response ≤ i →
          frameGet frames i request_id = none)) := by
  constructor
  · intro h
    subst h
    rfl
  · intro h
    refine ⟨build_stream [[]] responses, ?_, ?_, ?_⟩
    · unfold stream_responses_to_frontend
      rw [if_neg (by simpa [List.isEmpty_iff] using h)]
    · rw [build_stream_length]
      have h1 : ([([] : Frame)] : List Frame).length = max 1 0 := by simp
      rw [h1, foldl_max_frames]
      rfl
    · intro request_id response hmem
      have hnone : ∀ p ∈ responses, ∀ j, frameGet [[]] j p.1 = none := by
        intro p _ j
        cases j with
        | zero => rfl
        | succ n => rfl
      exact build_stream_spec hnd [[]] hnone (request_id, response) hmem

/-- C4 counterexample: a single response with no tokens that has not
terminated still produces one (empty) frame, while the claim's frame count
(the maximum over requests with output of tokens + termination bonus) is 0:
the emitted length is max 1 of that maximum, not the maximum itself. -/
theorem C4_counterexample :
    stream_responses_to_frontend [("a", { tokens := [], is_done := false })] =
      some [[]] ∧
    max_response_frames [("a", { tokens := [], is_done := false })] = 0 ∧
    (1 : Nat) ≠ 0 := by
  refine ⟨?_, rfl, by decide⟩
  simp [stream_responses_to_frontend, build_stream, process_response,
    pad_frames_eq, write_tokens, response_frame_count]

/-- C4 witness: the spec's own framing example — request A produces 3 tokens
and terminates, request B produces 5 tokens and continues. -/
theorem C4_witness :
    ∃ frames,
      stream_responses_to_frontend [("A", { tokens := [1, 2, 3], is_done := true }), ("B", { tokens := [4, 5, 6, 7, 8], is_done := false })] = some frames ∧
      frames.length = max 1 (max_response_frames [("A", { tokens := [1, 2, 3], is_done := true }), ("B", { tokens := [4, 5, 6, 7, 8], is_done := false })]) ∧
      ∀ request_id response,
        (request_id, response) ∈ [("A", ({ tokens := [1, 2, 3], is_done := true } : TextGenerationResponse)), ("B", { tokens := [4, 5, 6, 7, 8], is_done := false })] →
        (∀ i, i < response.tokens.length →
          frameGet frames i request_id =
            some (StreamItem.token (response.tokens.getD i 0))) ∧
        (response.is_done = true →
          frameGet frames response.tokens.length request_id =
            some StreamItem.stop) ∧
        (∀ i, response_frame_count response ≤ i →
          frameGet frames i request_id = none) :=
  (C4_stream_framing
    [("A", { tokens := [1, 2, 3], is_done := true }),
     ("B", { tokens := [4, 5, 6, 7, 8], is_done := false })]
    (by decide)).2 (by decide)

/-! ### Slot-conservation invariant -/

theorem nodup_append_singleton {α : Type} {l : List α} {x : α}
    (h : l.Nodup) (hx : x ∉ l) : (l ++ [x]).Nodup := by
  rw [List.nodup_append]
  refine ⟨h, List.nodup_singleton x, fun a ha hmem => ?_⟩
  simp at hmem
  subst hmem
  exact hx ha

theorem mem_claimedList_of_lookup {st : SchedState} {rid : String} {ctx : InputContext}
    (h : lookupKey st.active_batch rid = some ctx) :
    ctx.cache_seq_id ∈ claimedList st :=
  List.mem_map_of_mem _ (lookupKey_mem h)

theorem popMinSlot_spec {s : Finset Nat} (h : s.Nonempty) :
    ∃ slot, popMinSlot s = some (slot, s.erase slot) ∧ slot ∈ s := by
  refine ⟨s.min' h, ?_, s.min'_mem h⟩
  simp [popMinSlot, h]

theorem evict_slotInv (cfg : DecodeSchedulerConfig) {st : SchedState} {rid : String}
    {ctx : InputContext} (hInv : SlotInv cfg st)
    (hlook : lookupKey st.active_batch rid = some ctx) :
    SlotInv cfg
      { active_batch := eraseKey st.active_batch rid
        available_cache_indices := insert ctx.cache_seq_id st.available_cache_indices
        preempted_decode := st.preempted_decode ++ [(rid, ctx.reset)] } := by
  have hkperm := batchKeys_eraseKey_perm hlook
  have hcperm : (claimedList st).Perm (ctx.cache_seq_id ::
      (eraseKey st.active_batch rid).map (fun p => p.2.cache_seq_id)) := by
    simpa using claimed_eraseKey_perm (fun p => p.2.cache_seq_id) hlook
  have hknodup := hkperm.nodup_iff.mp hInv.keys_nodup
  have hcnodup := hcperm.nodup_iff.mp hInv.claimed_nodup
  have hrid_batch : rid ∈ batchKeys st.active_batch := mem_keys_of_lookupKey hlook
  have hslot_claimed : ctx.cache_seq_id ∈ claimedList st := mem_claimedList_of_lookup hlook
  have hrid_pre : rid ∉ batchKeys st.preempted_decode := fun hin =>
    hInv.pre_disj rid hin hrid_batch
  refine ⟨?_, ?_, ?_, ?_, ?_, ?_, ?_, ?_, ?_, ?_⟩
  · exact (List.nodup_cons.mp hknodup).2
  · intro p hp
    exact hInv.assigned p (mem_of_mem_eraseKey hp)
  · exact (List.nodup_cons.mp hcnodup).2
  · intro s hs
    exact hInv.claimed_lt s (hcperm.mem_iff.mpr (List.mem_cons_of_mem _ hs))
  · intro s hs
    rcases Finset.mem_insert.mp hs with hs | hs
    · rw [hs]
      exact hInv.claimed_lt _ hslot_claimed
    · exact hInv.avail_lt s hs
  · intro s hs hmem
    rcases Finset.mem_insert.mp hmem with he | he
    · exact (List.nodup_cons.mp hcnodup).1 (by rw [← he]; exact hs)
    · exact hInv.disj s (hcperm.mem_iff.mpr (List.mem_cons_of_mem _ hs)) he
  · intro s hlt
    rcases hInv.cover s hlt with hs | hs
    · exact Or.inl (Finset.mem_insert_of_mem hs)
    · rcases List.mem_cons.mp (hcperm.mem_iff.mp hs) with he | he
      · exact Or.inl (by rw [he]; exact Finset.mem_insert_self _ _)
      · exact Or.inr he
  · rw [batchKeys_append]
    exact nodup_append_singleton hInv.pre_nodup hrid_pre
  · intro k hk
    rw [batchKeys_append] at hk
    rcases List.mem_append.mp hk with hk | hk
    · intro hin
      exact hInv.pre_disj k hk (mem_keys_of_mem_keys_eraseKey hin)
    · simp [batchKeys] at hk
      subst hk
      exact not_mem_keys_eraseKey hInv.keys_nodup
  · intro p hp
    rcases List.mem_append.mp hp with hp | hp
    · exact hInv.pre_unassigned p hp
    · simp at hp
      subst hp
      rfl

theorem reclaim_slotInv (cfg : DecodeSchedulerConfig) {st : SchedState} {rid : String}
    {ctx : InputContext} (hInv : SlotInv cfg st)
    (hlook : lookupKey st.active_batch rid = some ctx) :
    SlotInv cfg
      { active_batch := eraseKey st.active_batch rid
        available_cache_indices := insert ctx.cache_seq_id st.available_cache_indices
        preempted_decode := st.preempted_decode } := by
  have hkperm := batchKeys_eraseKey_perm hlook
  have hcperm : (claimedList st).Perm (ctx.cache_seq_id ::
      (eraseKey st.active_batch rid).map (fun p => p.2.cache_seq_id)) := by
    simpa using claimed_eraseKey_perm (fun p => p.2.cache_seq_id) hlook
  have hknodup := hkperm.nodup_iff.mp hInv.keys_nodup
  have hcnodup := hcperm.nodup_iff.mp hInv.claimed_nodup
  have hslot_claimed : ctx.cache_seq_id ∈ claimedList st := mem_claimedList_of_lookup hlook
  refine ⟨?_, ?_, ?_, ?_, ?_, ?_, ?_, ?_, ?_, ?_⟩
  · exact (List.nodup_cons.mp hknodup).2
  · intro p hp
    exact hInv.assigned p (mem_of_mem_eraseKey hp)
  · exact (List.nodup_cons.mp hcnodup).2
  · intro s hs
    exact hInv.claimed_lt s (hcperm.mem_iff.mpr (List.mem_cons_of_mem _ hs))
  · intro s hs
    rcases Finset.mem_insert.mp hs with hs | hs
    · rw [hs]
      exact hInv.claimed_lt _ hslot_claimed
    · exact hInv.avail_lt s hs
  · intro s hs hmem
    rcases Finset.mem_insert.mp hmem with he | he
    · exact (List.nodup_cons.mp hcnodup).1 (by rw [← he]; exact hs)
    · exact hInv.disj s (hcperm.mem_iff.mpr (List.mem_cons_of_mem _ hs)) he
  · intro s hlt
    rcases hInv.cover s hlt with hs | hs
    · exact Or.inl (Finset.mem_insert_of_mem hs)
    · rcases List.mem_cons.mp (hcperm.mem_iff.mp hs) with he | he
      · exact Or.inl (by rw [he]; exact Finset.mem_insert_self _ _)
      · exact Or.inr he
  · exact hInv.pre_nodup
  · intro k hk hin
    exact hInv.pre_disj k hk (mem_keys_of_mem_keys_eraseKey hin)
  · exact hInv.pre_unassigned

theorem claim_slotInv_core (cfg : DecodeSchedulerConfig) {st : SchedState}
    {rid : String} {ctx : InputContext} {slot : Nat}
    {pre' : List (String × InputContext)}
    (hInv : SlotInv cfg st)
    (hslot : slot ∈ st.available_cache_indices)
    (hfresh : rid ∉ batchKeys st.active_batch)
    (hpre_sub : ∀ p ∈ pre', p ∈ st.preempted_decode)
    (hpre_nodup : (batchKeys pre').Nodup)
    (hpre_fresh : rid ∉ batchKeys pre') :
    SlotInv cfg
      { active_batch := odSet st.active_batch rid (ctx.assign_to_cache slot)
        available_cache_indices := st.available_cache_indices.erase slot
        preempted_decode := pre' } := by
  have hbatch2 : odSet st.active_batch rid (ctx.assign_to_cache slot) =
      st.active_batch ++ [(rid, ctx.assign_to_cache slot)] :=
    odSet_of_not_mem hfresh
  have hkeys2 : batchKeys (odSet st.active_batch rid (ctx.assign_to_cache slot)) =
      batchKeys st.active_batch ++ [rid] := batchKeys_odSet_fresh hfresh _
  have hclaimed2 : (odSet st.active_batch rid (ctx.assign_to_cache slot)).map
      (fun p => p.2.cache_seq_id) =
      claimedList st ++ [slot] := by
    rw [hbatch2, List.map_append]
    rfl
  have hslot_not_claimed : slot ∉ claimedList st := fun hin => hInv.disj slot hin hslot
  have hpre_keys_sub : ∀ k ∈ batchKeys pre', k ∈ batchKeys st.preempted_decode := by
    intro k hk
    rw [batchKeys, List.mem_map] at hk ⊢
    obtain ⟨p, hp, hpk⟩ := hk
    exact ⟨p, hpre_sub p hp, hpk⟩
  refine ⟨?_, ?_, ?_, ?_, ?_, ?_, ?_, ?_, ?_, ?_⟩
  · rw [hkeys2]
    exact nodup_append_singleton hInv.keys_nodup hfresh
  · intro p hp
    rw [hbatch2] at hp
    rcases List.mem_append.mp hp with hp | hp
    · exact hInv.assigned p hp
    · simp at hp
      subst hp
      rfl
  · show ((odSet st.active_batch rid (ctx.assign_to_cache slot)).map
      (fun p => p.2.cache_seq_id)).Nodup
    rw [hclaimed2]
    exact nodup_append_singleton hInv.claimed_nodup hslot_not_claimed
  · intro s hs
    simp only [claimedList] at hs
    rw [hclaimed2] at hs
    rcases List.mem_append.mp hs with hs | hs
    · exact hInv.claimed_lt s hs
    · simp at hs
      subst hs
      exact hInv.avail_lt _ hslot
  · intro s hs
    exact hInv.avail_lt s (Finset.mem_of_mem_erase hs)
  · intro s hs hmem
    simp only [claimedList] at hs
    rw [hclaimed2] at hs
    rcases List.mem_append.mp hs with hs | hs
    · exact hInv.disj s hs (Finset.mem_of_mem_erase hmem)
    · simp at hs
      subst hs
      exact Finset.not_mem_erase _ st.available_cache_indices hmem
  · intro s hlt
    simp only [claimedList]
    rw [hclaimed2]
    rcases hInv.cover s hlt with hs | hs
    · by_cases he : s = slot
      · subst he
        exact Or.inr (by simp)
      · exact Or.inl (Finset.mem_erase_of_ne_of_mem he hs)
    · exact Or.inr (List.mem_append_left _ hs)
  · exact hpre_nodup
  · intro k hk hin
    rw [hkeys2] at hin
    rcases List.mem_append.mp hin with hin | hin
    · exact hInv.pre_disj k (hpre_keys_sub k hk) hin
    · simp at hin
      subst hin
      exact hpre_fresh hk
  · intro p hp
    exact hInv.pre_unassigned p (hpre_sub p hp)

theorem admit_inv (cfg : DecodeSchedulerConfig) (n : Nat) :
    ∀ (st : SchedState) (q : List (String × InputContext)),
    st.preempted_decode.length + q.length ≤ n →
    SlotInv cfg st → QueueOk st q →
    ∃ st1 q1 ev, admitLoop st q = some (st1, q1, ev) ∧ SlotInv cfg st1 := by
  induction n with
  | zero =>
    intro st q hle hInv hQ
    have hp : st.preempted_decode = [] := List.length_eq_zero.mp (by omega)
    have hq : q = [] := List.length_eq_zero.mp (by omega)
    subst hq
    by_cases hne : st.available_cache_indices.Nonempty
    · exact ⟨st, [], [],
        admitLoop_empty hne (by simp [pull_from_decode_socket, hp]), hInv⟩
    · exact ⟨st, [], [], admitLoop_no_slot hne [], hInv⟩
  | succ n ih =>
    intro st q hle hInv hQ
    by_cases hne : st.available_cache_indices.Nonempty
    case neg => exact ⟨st, q, [], admitLoop_no_slot hne q, hInv⟩
    case pos =>
    cases hp : st.preempted_decode with
    | cons p ps =>
      obtain ⟨rid, ctx⟩ := p
      have hpull : pull_from_decode_socket st q =
          some ((rid, ctx), { st with preempted_decode := ps }, q) := by
        simp [pull_from_decode_socket, hp]
      have hridpre : rid ∈ batchKeys st.preempted_decode := by
        rw [hp]
        exact List.mem_cons_self _ _
      have hassigned : ctx.is_assigned_to_cache = false :=
        hInv.pre_unassigned (rid, ctx) (by rw [hp]; exact List.mem_cons_self _ _)
      obtain ⟨slot, hpop, hslot⟩ := popMinSlot_spec hne
      have hfresh : rid ∉ batchKeys st.active_batch := hInv.pre_disj rid hridpre
      have hpre_tl : (rid :: batchKeys ps).Nodup := by
        have := hInv.pre_nodup
        rw [hp] at this
        exact this
      have hInv2 : SlotInv cfg
          { active_batch := odSet st.active_batch rid (ctx.assign_to_cache slot)
            available_cache_indices := st.available_cache_indices.erase slot
            preempted_decode := ps } :=
        claim_slotInv_core cfg hInv hslot hfresh
          (by rw [hp]; exact fun p hp2 => List.mem_cons_of_mem _ hp2)
          (List.nodup_cons.mp hpre_tl).2
          (List.nodup_cons.mp hpre_tl).1
      have hQ2 : QueueOk
          { active_batch := odSet st.active_batch rid (ctx.assign_to_cache slot)
            available_cache_indices := st.available_cache_indices.erase slot
            preempted_decode := ps } q := by
        refine ⟨hQ.1, hQ.2.1, fun k hk => ⟨?_, ?_⟩⟩
        · intro hin
          simp only at hin
          rw [batchKeys_odSet_fresh hfresh] at hin
          rcases List.mem_append.mp hin with hin | hin
          · exact (hQ.2.2 k hk).1 hin
          · simp at hin
            subst hin
            exact (hQ.2.2 k hk).2 hridpre
        · intro hin
          simp only at hin
          apply (hQ.2.2 k hk).2
          rw [hp]
          exact List.mem_cons_of_mem _ hin
      have hmeas : ps.length + q.length ≤ n := by
        rw [hp] at hle
        simp only [List.length_cons] at hle
        omega
      obtain ⟨st1, q1, ev, hadm, hInv1⟩ := ih
        { active_batch := odSet st.active_batch rid (ctx.assign_to_cache slot)
          available_cache_indices := st.available_cache_indices.erase slot
          preempted_decode := ps } q hmeas hInv2 hQ2
      refine ⟨st1, q1, Event.external_claim slot :: ev, ?_, hInv1⟩
      rw [admitLoop_step_claim hne hpull hassigned hpop, hadm]
      rfl
    | nil =>
      cases hq : q with
      | nil =>
        subst hq
        exact ⟨st, [], [],
          admitLoop_empty hne (by simp [pull_from_decode_socket, hp]), hInv⟩
      | cons d ds =>
        obtain ⟨rid, ctx⟩ := d
        subst hq
        have hpull : pull_from_decode_socket st ((rid, ctx) :: ds) =
            some ((rid, ctx), st, ds) := by
          simp [pull_from_decode_socket, hp]
        have hridq : rid ∈ batchKeys ((rid, ctx) :: ds) := List.mem_cons_self _ _
        have hassigned : ctx.is_assigned_to_cache = false :=
          hQ.1 (rid, ctx) (List.mem_cons_self _ _)
        obtain ⟨slot, hpop, hslot⟩ := popMinSlot_spec hne
        have hfresh : rid ∉ batchKeys st.active_batch := (hQ.2.2 rid hridq).1
        have hqnd : (rid :: batchKeys ds).Nodup := hQ.2.1
        have hInv2 : SlotInv cfg
            { active_batch := odSet st.active_batch rid (ctx.assign_to_cache slot)
              available_cache_indices := st.available_cache_indices.erase slot
              preempted_decode := st.preempted_decode } :=
          claim_slotInv_core cfg hInv hslot hfresh (fun p hp2 => hp2)
            hInv.pre_nodup
            (by rw [hp]; simp [batchKeys_nil])
        have hQ2 : QueueOk
            { active_batch := odSet st.active_batch rid (ctx.assign_to_cache slot)
              available_cache_indices := st.available_cache_indices.erase slot
              preempted_decode := st.preempted_decode } ds := by
          refine ⟨?_, ?_, fun k hk => ⟨?_, ?_⟩⟩
          · exact fun p hp2 => hQ.1 p (List.mem_cons_of_mem _ hp2)
          · exact (List.nodup_cons.mp hqnd).2
          · intro hin
            simp only at hin
            rw [batchKeys_odSet_fresh hfresh] at hin
            rcases List.mem_append.mp hin with hin | hin
            · exact (hQ.2.2 k (List.mem_cons_of_mem _ hk)).1 hin
            · simp at hin
              subst hin
              exact (List.nodup_cons.mp hqnd).1 hk
          · intro hin
            simp only at hin
            exact (hQ.2.2 k (List.mem_cons_of_mem _ hk)).2 hin
        have hmeas : st.preempted_decode.length + ds.length ≤ n := by
          simp only [List.length_cons] at hle
          omega
        obtain ⟨st1, q1, ev, hadm, hInv1⟩ := ih
          { active_batch := odSet st.active_batch rid (ctx.assign_to_cache slot)
            available_cache_indices := st.available_cache_indices.erase slot
            preempted_decode := st.preempted_decode } ds hmeas hInv2 hQ2
        refine ⟨st1, q1, Event.external_claim slot :: ev, ?_, hInv1⟩
        rw [admitLoop_step_claim hne hpull hassigned hpop, hadm]
        rfl

theorem init_slotInv (cfg : DecodeSchedulerConfig) : SlotInv cfg (init_state cfg) := by
  refine ⟨?_, ?_, ?_, ?_, ?_, ?_, ?_, ?_, ?_, ?_⟩ <;>
    simp [init_state, claimedList, batchKeys, Finset.mem_range]

theorem getLast_not_mem_dropLast {l : List String} (h : l.Nodup) (hne : l ≠ []) :
    l.getLast hne ∉ l.dropLast := by
  have hd := List.dropLast_append_getLast hne
  intro hmem
  have hnot : ¬ (l.dropLast ++ [l.getLast hne]).Nodup := by
    rw [List.nodup_append]
    rintro ⟨h1, h2, h3⟩
    exact h3 hmem (by simp)
  rw [hd] at hnot
  exact hnot h

theorem reservation_inv (cfg : DecodeSchedulerConfig) (env : Env) (n : Nat) :
    ∀ (cands : List String) (nCalls : Nat) (st : SchedState),
    cands.length ≤ n →
    SlotInv cfg st →
    cands.Nodup →
    (∀ k ∈ cands, k ∈ batchKeys st.active_batch) →
    ∃ st2 ev, reservationLoop cfg env nCalls st cands = some (st2, ev) ∧
      SlotInv cfg st2 := by
  induction n with
  | zero =>
    intro cands nCalls st hle hInv hnd hsub
    have hnil : cands = [] := List.length_eq_zero.mp (by omega)
    subst hnil
    exact ⟨st, [], reservationLoop_nil cfg env nCalls st, hInv⟩
  | succ n ih =>
    intro cands nCalls st hle hInv hnd hsub
    rcases cands with _ | ⟨request_id, rest⟩
    · exact ⟨st, [], reservationLoop_nil cfg env nCalls st, hInv⟩
    obtain ⟨context, hlook⟩ := lookupKey_isSome_of_mem_keys
      (hsub request_id (List.mem_cons_self _ _))
    have hnd' := List.nodup_cons.mp hnd
    cases hpf : env.prefetch nCalls context (reservation_num_steps cfg env context) with
    | true =>
      obtain ⟨st2, ev2, hres, hInv2⟩ := ih rest (nCalls + 1) st
        (by simp only [List.length_cons] at hle; omega) hInv hnd'.2
        (fun k hk => hsub k (List.mem_cons_of_mem _ hk))
      refine ⟨st2, Event.prefetch_call request_id
        (reservation_num_steps cfg env context) true :: ev2, ?_, hInv2⟩
      rw [reservationLoop_cons_success cfg env hlook hpf, hres]
      rfl
    | false =>
      rcases rest with _ | ⟨r2, rs⟩
      · exact ⟨_, _, reservationLoop_cons_fail_alone cfg env hlook hpf,
          evict_slotInv cfg hInv hlook⟩
      · have hvictim_mem_rest : (r2 :: rs).getLast (List.cons_ne_nil r2 rs) ∈
            r2 :: rs := List.getLast_mem _
        have hvictim_keys : (r2 :: rs).getLast (List.cons_ne_nil r2 rs) ∈
            batchKeys st.active_batch :=
          hsub _ (List.mem_cons_of_mem _ hvictim_mem_rest)
        obtain ⟨vctx, batch', hpop⟩ := popKey_isSome_of_mem hvictim_keys
        obtain ⟨hvlook, hbatch'⟩ := popKey_eq hpop
        have hInvE : SlotInv cfg
            { active_batch := batch'
              available_cache_indices :=
                insert vctx.cache_seq_id st.available_cache_indices
              preempted_decode := st.preempted_decode ++
                [((r2 :: rs).getLast (List.cons_ne_nil r2 rs), vctx.reset)] } := by
          rw [hbatch']
          exact evict_slotInv cfg hInv hvlook
        have hvictim_ne_rid : request_id ≠
            (r2 :: rs).getLast (List.cons_ne_nil r2 rs) := by
          intro he
          exact hnd'.1 (he ▸ hvictim_mem_rest)
        have hnotdrop : (r2 :: rs).getLast (List.cons_ne_nil r2 rs) ∉
            (r2 :: rs).dropLast := getLast_not_mem_dropLast hnd'.2 _
        have hcands2_nodup : (request_id :: (r2 :: rs).dropLast).Nodup := by
          rw [List.nodup_cons]
          exact ⟨fun hmem => hnd'.1 ((List.dropLast_sublist _).subset hmem),
            List.Nodup.sublist (List.dropLast_sublist _) hnd'.2⟩
        have hcands2_sub : ∀ k ∈ request_id :: (r2 :: rs).dropLast,
            k ∈ batchKeys batch' := by
          intro k hk
          rw [hbatch']
          apply mem_keys_eraseKey_of_ne
          · rcases List.mem_cons.mp hk with hk | hk
            · exact hk ▸ hvictim_ne_rid
            · intro he
              exact hnotdrop (he ▸ hk)
          · rcases List.mem_cons.mp hk with hk | hk
            · exact hk ▸ hsub request_id (List.mem_cons_self _ _)
            · exact hsub k (List.mem_cons_of_mem _
                ((List.dropLast_sublist _).subset hk))
        obtain ⟨st2, ev2, hres, hInv2⟩ := ih (request_id :: (r2 :: rs).dropLast)
          (nCalls + 1)
          { active_batch := batch'
            available_cache_indices :=
              insert vctx.cache_seq_id st.available_cache_indices
            preempted_decode := st.preempted_decode ++
              [((r2 :: rs).getLast (List.cons_ne_nil r2 rs), vctx.reset)] }
          (by simp only [List.length_cons, List.length_dropLast] at hle ⊢; omega)
          hInvE hcands2_nodup hcands2_sub
        refine ⟨st2, Event.prefetch_call request_id
            (reservation_num_steps cfg env context) false ::
          (Event.pipeline_release ((r2 :: rs).getLast (List.cons_ne_nil r2 rs)) ::
            ev2), ?_, hInv2⟩
        rw [reservationLoop_cons_fail_evict cfg env hlook hpf hpop, hres]
        rfl

theorem handle_inv (cfg : DecodeSchedulerConfig) :
    ∀ (resps : List (String × TextGenerationResponse)) (st : SchedState),
    SlotInv cfg st →
    (batchKeys resps).Nodup →
    (∀ k ∈ batchKeys resps, k ∈ batchKeys st.active_batch) →
    ∃ st2 ev, handle_terminated_responses st resps = some (st2, ev) ∧
      SlotInv cfg st2 := by
  intro resps
  induction resps with
  | nil =>
    intro st hInv _ _
    exact ⟨st, [], handle_terminated_nil st, hInv⟩
  | cons p rest ih =>
    intro st hInv hnd hsub
    obtain ⟨request_id, response⟩ := p
    have hnd' : request_id ∉ batchKeys rest ∧ (batchKeys rest).Nodup := by
      rw [show batchKeys ((request_id, response) :: rest) =
        request_id :: batchKeys rest from rfl, List.nodup_cons] at hnd
      exact hnd
    cases hd : response.is_done with
    | false =>
      obtain ⟨st2, ev2, hres, hInv2⟩ := ih st hInv hnd'.2
        (fun k hk => hsub k (List.mem_cons_of_mem _ hk))
      exact ⟨st2, ev2, by rw [handle_terminated_cons_not_done hd, hres], hInv2⟩
    | true =>
      obtain ⟨context, hlook⟩ := lookupKey_isSome_of_mem_keys
        (hsub request_id (List.mem_cons_self _ _))
      have hInv1 : SlotInv cfg
          { active_batch := eraseKey st.active_batch request_id
            available_cache_indices :=
              insert context.cache_seq_id st.available_cache_indices
            preempted_decode := st.preempted_decode } :=
        reclaim_slotInv cfg hInv hlook
      have hsub1 : ∀ k ∈ batchKeys rest,
          k ∈ batchKeys (eraseKey st.active_batch request_id) := by
        intro k hk
        apply mem_keys_eraseKey_of_ne
        · intro he
          exact hnd'.1 (he ▸ hk)
        · exact hsub k (List.mem_cons_of_mem _ hk)
      obtain ⟨st2, ev2, hres, hInv2⟩ := ih
        { active_batch := eraseKey st.active_batch request_id
          available_cache_indices :=
            insert context.cache_seq_id st.available_cache_indices
          preempted_decode := st.preempted_decode } hInv1 hnd'.2 hsub1
      refine ⟨st2, Event.pipeline_release request_id :: ev2, ?_, hInv2⟩
      rw [handle_terminated_cons_done hd hlook, hres]
      rfl

theorem schedule_batch_eq (env : Env) (st : SchedState) (ns : Int)
    {st3 : SchedState} {ev3 : List Event}
    (hh : handle_terminated_responses st (env.next_token st.active_batch ns) =
      some (st3, ev3)) :
    schedule_batch env st ns =
      some (st3, stream_responses_to_frontend (env.next_token st.active_batch ns),
        ev3) := by
  unfold schedule_batch
  simp [hh]

theorem tick_eq_empty (cfg : DecodeSchedulerConfig) (env : Env) (st : SchedState)
    (q : List (String × InputContext)) {st2 : SchedState}
    {q1 : List (String × InputContext)} {ev : List Event}
    (hupd : update_batch cfg env st q = some (st2, q1, ev))
    (hemp : st2.active_batch.isEmpty = true) :
    tick cfg env st q = some st2 := by
  unfold tick
  rw [hupd]
  simp [hemp]

theorem tick_eq_nonempty (cfg : DecodeSchedulerConfig) (env : Env) (st : SchedState)
    (q : List (String × InputContext)) {st2 : SchedState}
    {q1 : List (String × InputContext)} {ev : List Event} {ns : Int}
    {st3 : SchedState} {str : Option (List Frame)} {ev3 : List Event}
    (hupd : update_batch cfg env st q = some (st2, q1, ev))
    (hemp : st2.active_batch.isEmpty = false)
    (hcalc : calculate_batch_num_steps cfg st2 = some ns)
    (hsched : schedule_batch env st2 ns = some (st3, str, ev3)) :
    tick cfg env st q = some st3 := by
  unfold tick
  rw [hupd]
  simp only [hemp, Bool.false_eq_true, if_false]
  rw [hcalc]
  simp [hsched]

theorem tick_inv (cfg : DecodeSchedulerConfig) (env : Env) (hEnv : EnvOk env)
    (st : SchedState) (q : List (String × InputContext))
    (hInv : SlotInv cfg st) (hQ : QueueOk st q) :
    ∃ st', tick cfg env st q = some st' ∧ SlotInv cfg st' := by
  obtain ⟨st1, q1, ev1, hadm, hInv1⟩ :=
    admit_inv cfg (st.preempted_decode.length + q.length) st q (le_refl _) hInv hQ
  obtain ⟨st2, ev2, hres, hInv2⟩ :=
    reservation_inv cfg env (batchKeys st1.active_batch).length
      (batchKeys st1.active_batch) 0 st1 (le_refl _) hInv1 hInv1.keys_nodup
      (fun k hk => hk)
  have hupd : update_batch cfg env st q = some (st2, q1, ev1 ++ ev2) := by
    unfold update_batch
    rw [hadm]
    simp [hres]
  cases hemp : st2.active_batch.isEmpty with
  | true => exact ⟨st2, tick_eq_empty cfg env st q hupd hemp, hInv2⟩
  | false =>
    have hcalc : calculate_batch_num_steps cfg st2 =
        some (calc_num_steps_aux cfg (st2.active_batch.map (fun p => p.2)) (-1)) := by
      unfold calculate_batch_num_steps
      rw [hemp]
      simp
    obtain ⟨st3, ev3, hh, hInv3⟩ := handle_inv cfg
      (env.next_token st2.active_batch
        (calc_num_steps_aux cfg (st2.active_batch.map (fun p => p.2)) (-1)))
      st2 hInv2 (hEnv _ _).1 (hEnv _ _).2
    exact ⟨st3, tick_eq_nonempty cfg env st q hupd hemp hcalc
      (schedule_batch_eq env st2 _ hh), hInv3⟩

theorem slotInv_card (cfg : DecodeSchedulerConfig) (st : SchedState)
    (hInv : SlotInv cfg st) :
    st.available_cache_indices.card + st.active_batch.length =
      cfg.max_batch_size_tg ∧
    st.active_batch.length ≤ cfg.max_batch_size_tg := by
  have hunion : st.available_cache_indices ∪ (claimedList st).toFinset =
      Finset.range cfg.max_batch_size_tg := by
    ext s
    simp only [Finset.mem_union, List.mem_toFinset, Finset.mem_range]
    constructor
    · rintro (hs | hs)
      · exact hInv.avail_lt s hs
      · exact hInv.claimed_lt s hs
    · exact hInv.cover s
  have hdisj : Disjoint st.available_cache_indices (claimedList st).toFinset := by
    rw [Finset.disjoint_left]
    intro s hs hmem
    exact hInv.disj s (List.mem_toFinset.mp hmem) hs
  have hcard1 : st.available_cache_indices.card + (claimedList st).toFinset.card =
      cfg.max_batch_size_tg := by
    rw [← Finset.card_union_of_disjoint hdisj, hunion, Finset.card_range]
  have hcard2 : (claimedList st).toFinset.card = st.active_batch.length := by
    rw [List.toFinset_card_of_nodup hInv.claimed_nodup]
    simp [claimedList]
  constructor
  · rw [← hcard2]
    exact hcard1
  · omega

/-- C2: the slot-conservation invariant holds at the top of every scheduling
cycle.  The initial state satisfies it, every successful tick preserves it
(under the spec-modelled assumptions that inbound decode requests arrive
unassigned with fresh distinct ids and the generator answers only for batch
members), and it entails the claim: free and claimed slots partition the
`max_batch_size_tg` slot ids — `card free + |batch| = max_batch_size_tg`,
each member holding exactly one claimed slot (claimed slots distinct and
disjoint from the free set) — and `|batch| ≤ max_batch_size_tg`. -/
theorem C2_slot_conservation (cfg : DecodeSchedulerConfig) :
    SlotInv cfg (init_state cfg) ∧
    (∀ env st q, EnvOk env → SlotInv cfg st → QueueOk st q →
      ∃ st', tick cfg env st q = some st' ∧ SlotInv cfg st') ∧
    (∀ st, SlotInv cfg st →
      st.available_cache_indices.card + st.active_batch.length =
        cfg.max_batch_size_tg ∧
      st.active_batch.length ≤ cfg.max_batch_size_tg) :=
  ⟨init_slotInv cfg,
   fun env st q hEnv hInv hQ => tick_inv cfg env hEnv st q hInv hQ,
   fun st hInv => slotInv_card cfg st hInv⟩

/-- C2 witness: the invariant at the initial two-slot state, one successful
tick from it (with an empty decode queue and a trivial generator), and the
resulting cardinality facts 2 + 0 = 2 and 0 ≤ 2. -/
theorem C2_witness :
    SlotInv { max_batch_size_tg := 2, max_forward_steps_tg := 4 }
      (init_state { max_batch_size_tg := 2, max_forward_steps_tg := 4 }) ∧
    (∃ st', tick { max_batch_size_tg := 2, max_forward_steps_tg := 4 }
        { prefetch := fun _ _ _ => true, max_seq_len := 10,
          next_token := fun _ _ => [] }
        (init_state { max_batch_size_tg := 2, max_forward_steps_tg := 4 }) [] =
        some st' ∧
      SlotInv { max_batch_size_tg := 2, max_forward_steps_tg := 4 } st') ∧
    ((init_state { max_batch_size_tg := 2, max_forward_steps_tg := 4 }).available_cache_indices.card +
        (init_state { max_batch_size_tg := 2, max_forward_steps_tg := 4 }).active_batch.length = 2 ∧
      (init_state { max_batch_size_tg := 2, max_forward_steps_tg := 4 }).active_batch.length ≤ 2) := by
  refine ⟨(C2_slot_conservation _).1, ?_, ?_⟩
  · exact (C2_slot_conservation
      { max_batch_size_tg := 2, max_forward_steps_tg := 4 }).2.1
      { prefetch := fun _ _ _ => true, max_seq_len := 10,
        next_token := fun _ _ => [] }
      (init_state { max_batch_size_tg := 2, max_forward_steps_tg := 4 }) []
      (fun b k => ⟨by simp [batchKeys], by simp [batchKeys]⟩)
      ((C2_slot_conservation { max_batch_size_tg := 2, max_forward_steps_tg := 4 }).1)
      ⟨by simp, by simp [batchKeys], by simp [batchKeys]⟩
  · exact (C2_slot_conservation
      { max_batch_size_tg := 2, max_forward_steps_tg := 4 }).2.2
      (init_state { max_batch_size_tg := 2, max_forward_steps_tg := 4 })
      ((C2_slot_conservation { max_batch_size_tg := 2, max_forward_steps_tg := 4 }).1)

end DecodeSched
